import Mathlib

/-!
Shallow embedding of the rounded-polygon / morph TypeScript library and
verification of its specification claims.

Numbers are modelled as rationals (`ℚ`): the source does exact double
arithmetic on values produced by field operations, and every claim here is
about the algebraic structure of the computations, not about rounding of
IEEE doubles.  Calls to environment primitives that are not field
operations (`Math.sqrt`, trigonometry) are abstracted as explicit function
parameters (`sq`, `rtc`), mirroring the fact that the library treats them
as black boxes.
-/

namespace RoundedPolygonLib

/-! ## utils.ts -/

def DistanceEpsilon : ℚ := 1 / 10000

def AngleEpsilon : ℚ := 1 / 1000000

/-- Truncation toward zero, as JavaScript number-to-integer conversion in
the remainder operator. -/
def jsTrunc (q : ℚ) : ℤ :=
  if q < 0 then -⌊-q⌋ else ⌊q⌋

/-- JavaScript remainder operator `a % b` (sign follows the dividend). -/
def jsMod (a b : ℚ) : ℚ :=
  a - b * jsTrunc (a / b)

/-- utils.ts `positiveModulo`: `((value % mod) + mod) % mod`. -/
def positiveModulo (value mod : ℚ) : ℚ :=
  jsMod (jsMod value mod + mod) mod

/-- utils.ts `interpolate`. -/
def interpolate (start stop fraction : ℚ) : ℚ :=
  (1 - fraction) * start + fraction * stop

/-! ## point.ts (not in the sources)

Modelled from the spec: the repository imports `./point`, whose file is
missing; the spec (§2, §3) describes it as an immutable 2D vector with
add, subtract, scale, dot, distance, rotate 90°, normalize, clockwise test
and linear interpolation.  Distance (hence normalization) needs `Math.sqrt`,
which is passed in as the parameter `sq` applied to the squared length. -/

structure Point where
  x : ℚ
  y : ℚ
deriving DecidableEq, Repr

instance : Inhabited Point := ⟨⟨0, 0⟩⟩

def Point.plus (p q : Point) : Point := ⟨p.x + q.x, p.y + q.y⟩

def Point.minus (p q : Point) : Point := ⟨p.x - q.x, p.y - q.y⟩

def Point.times (p : Point) (k : ℚ) : Point := ⟨p.x * k, p.y * k⟩

def Point.div (p : Point) (k : ℚ) : Point := ⟨p.x / k, p.y / k⟩

def Point.dotProduct (p q : Point) : ℚ := p.x * q.x + p.y * q.y

def Point.dotProductScalar (p : Point) (x y : ℚ) : ℚ := p.x * x + p.y * y

def Point.getDistanceSquared (p : Point) : ℚ := p.x * p.x + p.y * p.y

/-- Length of the vector; `sq` stands for `Math.sqrt`. -/
def Point.getDistance (sq : ℚ → ℚ) (p : Point) : ℚ := sq (p.x * p.x + p.y * p.y)

def Point.rotate90 (p : Point) : Point := ⟨-p.y, p.x⟩

def Point.getDirection (sq : ℚ → ℚ) (p : Point) : Point := p.div (p.getDistance sq)

def Point.interpolate (p q : Point) (fraction : ℚ) : Point :=
  ⟨RoundedPolygonLib.interpolate p.x q.x fraction,
   RoundedPolygonLib.interpolate p.y q.y fraction⟩

/-- utils.ts `distance`, with `sq` standing for `Math.sqrt`. -/
def distanceQ (sq : ℚ → ℚ) (x y : ℚ) : ℚ := sq (x * x + y * y)

/-- utils.ts `distanceSquared`. -/
def distanceSquared (x y : ℚ) : ℚ := x * x + y * y

/-- utils.ts `directionVector`, with `sq` standing for `Math.sqrt`. -/
def directionVector (sq : ℚ → ℚ) (x y : ℚ) : Point :=
  let d := distanceQ sq x y
  ⟨x / d, y / d⟩

/-! ## cubic.ts -/

/-- An 8-number record: anchor0, control0, control1, anchor1. -/
structure Cubic where
  a0x : ℚ
  a0y : ℚ
  c0x : ℚ
  c0y : ℚ
  c1x : ℚ
  c1y : ℚ
  a1x : ℚ
  a1y : ℚ
deriving DecidableEq, Repr

instance : Inhabited Cubic := ⟨⟨0, 0, 0, 0, 0, 0, 0, 0⟩⟩

def Cubic.create (anchor0 control0 control1 anchor1 : Point) : Cubic :=
  ⟨anchor0.x, anchor0.y, control0.x, control0.y, control1.x, control1.y, anchor1.x, anchor1.y⟩

def Cubic.pointOnCurve (c : Cubic) (t : ℚ) : Point :=
  let u := 1 - t
  ⟨c.a0x * (u * u * u) + c.c0x * (3 * t * u * u) + c.c1x * (3 * t * t * u) + c.a1x * (t * t * t),
   c.a0y * (u * u * u) + c.c0y * (3 * t * u * u) + c.c1y * (3 * t * t * u) + c.a1y * (t * t * t)⟩

def Cubic.zeroLength (c : Cubic) : Bool :=
  decide (|c.a0x - c.a1x| < DistanceEpsilon ∧ |c.a0y - c.a1y| < DistanceEpsilon)

def Cubic.split (c : Cubic) (t : ℚ) : Cubic × Cubic :=
  let u := 1 - t
  let p := c.pointOnCurve t
  (⟨c.a0x, c.a0y,
    c.a0x * u + c.c0x * t,
    c.a0y * u + c.c0y * t,
    c.a0x * (u * u) + c.c0x * (2 * u * t) + c.c1x * (t * t),
    c.a0y * (u * u) + c.c0y * (2 * u * t) + c.c1y * (t * t),
    p.x, p.y⟩,
   ⟨p.x, p.y,
    c.c0x * (u * u) + c.c1x * (2 * u * t) + c.a1x * (t * t),
    c.c0y * (u * u) + c.c1y * (2 * u * t) + c.a1y * (t * t),
    c.c1x * u + c.a1x * t,
    c.c1y * u + c.a1y * t,
    c.a1x, c.a1y⟩)

def Cubic.reverse (c : Cubic) : Cubic :=
  ⟨c.a1x, c.a1y, c.c1x, c.c1y, c.c0x, c.c0y, c.a0x, c.a0y⟩

def Cubic.straightLine (x0 y0 x1 y1 : ℚ) : Cubic :=
  ⟨x0, y0,
   interpolate x0 x1 (1 / 3), interpolate y0 y1 (1 / 3),
   interpolate x0 x1 (2 / 3), interpolate y0 y1 (2 / 3),
   x1, y1⟩

/-- cubic.ts `circularArc`; `sq` stands for `Math.sqrt`. -/
def Cubic.circularArc (sq : ℚ → ℚ) (centerX centerY x0 y0 x1 y1 : ℚ) : Cubic :=
  let p0d := directionVector sq (x0 - centerX) (y0 - centerY)
  let p1d := directionVector sq (x1 - centerX) (y1 - centerY)
  let rotatedP0 := p0d.rotate90
  let rotatedP1 := p1d.rotate90
  let clockwise := rotatedP0.dotProductScalar (x1 - centerX) (y1 - centerY) ≥ 0
  let cosa := p0d.dotProduct p1d
  if cosa > 999 / 1000 then Cubic.straightLine x0 y0 x1 y1
  else
    let k := distanceQ sq (x0 - centerX) (y0 - centerY) * 4 / 3 *
      (sq (2 * (1 - cosa)) - sq (1 - cosa * cosa)) / (1 - cosa) *
      (if clockwise then 1 else -1)
    ⟨x0, y0,
     x0 + rotatedP0.x * k, y0 + rotatedP0.y * k,
     x1 - rotatedP1.x * k, y1 - rotatedP1.y * k,
     x1, y1⟩

/-- Componentwise interpolation of two cubics, as in `Morph.asCubics` and
`MutableCubic.interpolate`. -/
def Cubic.interpolate (c1 c2 : Cubic) (progress : ℚ) : Cubic :=
  ⟨RoundedPolygonLib.interpolate c1.a0x c2.a0x progress,
   RoundedPolygonLib.interpolate c1.a0y c2.a0y progress,
   RoundedPolygonLib.interpolate c1.c0x c2.c0x progress,
   RoundedPolygonLib.interpolate c1.c0y c2.c0y progress,
   RoundedPolygonLib.interpolate c1.c1x c2.c1x progress,
   RoundedPolygonLib.interpolate c1.c1y c2.c1y progress,
   RoundedPolygonLib.interpolate c1.a1x c2.a1x progress,
   RoundedPolygonLib.interpolate c1.a1y c2.a1y progress⟩

/-! ## corner-rounding.ts -/

structure CornerRounding where
  radius : ℚ
  smoothing : ℚ
deriving DecidableEq, Repr

def CornerRounding.Unrounded : CornerRounding := ⟨0, 0⟩

/-! ## rounded-corner.ts -/

/-- State of a `RoundedCorner` after construction.  The mutable `center`
field is omitted: it is only written by `getCubics` and never read by any
code covered by a claim. -/
structure RoundedCorner where
  p0 : Point
  p1 : Point
  p2 : Point
  d1 : Point
  d2 : Point
  cornerRadius : ℚ
  smoothing : ℚ
  cosAngle : ℚ
  sinAngle : ℚ
  expectedRoundCut : ℚ
deriving DecidableEq, Repr

/-- Constructor of `RoundedCorner`; `sq` stands for `Math.sqrt`. -/
def RoundedCorner.mk' (sq : ℚ → ℚ) (p0 p1 p2 : Point) (rounding : Option CornerRounding) :
    RoundedCorner :=
  let v01 := p0.minus p1
  let v21 := p2.minus p1
  let d01 := v01.getDistance sq
  let d21 := v21.getDistance sq
  if d01 > 0 ∧ d21 > 0 then
    let d1 := v01.div d01
    let d2 := v21.div d21
    let cornerRadius := (rounding.map CornerRounding.radius).getD 0
    let smoothing := (rounding.map CornerRounding.smoothing).getD 0
    let cosAngle := d1.dotProduct d2
    let sinAngle := sq (1 - cosAngle ^ 2)
    let expectedRoundCut :=
      if sinAngle > 1 / 1000 then cornerRadius * (cosAngle + 1) / sinAngle else 0
    ⟨p0, p1, p2, d1, d2, cornerRadius, smoothing, cosAngle, sinAngle, expectedRoundCut⟩
  else
    ⟨p0, p1, p2, ⟨0, 0⟩, ⟨0, 0⟩, 0, 0, 0, 0, 0⟩

def RoundedCorner.expectedCut (rc : RoundedCorner) : ℚ :=
  (1 + rc.smoothing) * rc.expectedRoundCut

def RoundedCorner.calculateActualSmoothingValue (rc : RoundedCorner) (allowedCut : ℚ) : ℚ :=
  if allowedCut > rc.expectedCut then rc.smoothing
  else if allowedCut > rc.expectedRoundCut then
    rc.smoothing * (allowedCut - rc.expectedRoundCut) / (rc.expectedCut - rc.expectedRoundCut)
  else 0

def RoundedCorner.lineIntersection (p0 d0 p1 d1 : Point) : Option Point :=
  let rotatedD1 := d1.rotate90
  let den := d0.dotProduct rotatedD1
  if |den| < DistanceEpsilon then none
  else
    let num := (p1.minus p0).dotProduct rotatedD1
    if |den| < DistanceEpsilon * |num| then none
    else
      let k := num / den
      some (p0.plus (d0.times k))

def RoundedCorner.computeFlankingCurve (sq : ℚ → ℚ) (actualRoundCut actualSmoothingValues : ℚ)
    (corner sideStart circleSegmentIntersection otherCircleSegmentIntersection
     circleCenter : Point) (actualR : ℚ) : Cubic :=
  let sideDirection := (sideStart.minus corner).getDirection sq
  let curveStart := corner.plus (sideDirection.times (actualRoundCut * (1 + actualSmoothingValues)))
  let p := Point.interpolate circleSegmentIntersection
    ((circleSegmentIntersection.plus otherCircleSegmentIntersection).div 2)
    actualSmoothingValues
  let curveEnd := circleCenter.plus
    ((directionVector sq (p.x - circleCenter.x) (p.y - circleCenter.y)).times actualR)
  let circleTangent := (curveEnd.minus circleCenter).rotate90
  let anchorEnd :=
    (RoundedCorner.lineIntersection sideStart sideDirection curveEnd circleTangent).getD
      circleSegmentIntersection
  let anchorStart := (curveStart.plus (anchorEnd.times 2)).div 3
  Cubic.create curveStart anchorStart anchorEnd curveEnd

/-- `RoundedCorner.getCubics`; `sq` stands for `Math.sqrt`. -/
def RoundedCorner.getCubics (sq : ℚ → ℚ) (rc : RoundedCorner) (allowedCut0 : ℚ)
    (allowedCut1 : ℚ := allowedCut0) : List Cubic :=
  let allowedCut := min allowedCut0 allowedCut1
  if rc.expectedRoundCut < DistanceEpsilon ∨ allowedCut < DistanceEpsilon ∨
      rc.cornerRadius < DistanceEpsilon then
    [Cubic.straightLine rc.p1.x rc.p1.y rc.p1.x rc.p1.y]
  else
    let actualRoundCut := min allowedCut rc.expectedRoundCut
    let actualSmoothing0 := rc.calculateActualSmoothingValue allowedCut0
    let actualSmoothing1 := rc.calculateActualSmoothingValue allowedCut1
    let actualR := rc.cornerRadius * actualRoundCut / rc.expectedRoundCut
    let centerDistance := sq (actualR ^ 2 + actualRoundCut ^ 2)
    let center := rc.p1.plus (((rc.d1.plus rc.d2).div 2).getDirection sq |>.times centerDistance)
    let circleIntersection0 := rc.p1.plus (rc.d1.times actualRoundCut)
    let circleIntersection2 := rc.p1.plus (rc.d2.times actualRoundCut)
    let flanking0 := RoundedCorner.computeFlankingCurve sq actualRoundCut actualSmoothing0
      rc.p1 rc.p0 circleIntersection0 circleIntersection2 center actualR
    let flanking2 := (RoundedCorner.computeFlankingCurve sq actualRoundCut actualSmoothing1
      rc.p1 rc.p2 circleIntersection2 circleIntersection0 center actualR).reverse
    [flanking0,
     Cubic.circularArc sq center.x center.y flanking0.a1x flanking0.a1y flanking2.a0x flanking2.a0y,
     flanking2]

/-! ## float-mapping.ts -/

/-- float-mapping.ts `progressInRange` (a cyclic interval membership test). -/
def progressInRange (progress progressFrom progressTo : ℚ) : Bool :=
  if progressTo ≥ progressFrom then
    decide (progress ≥ progressFrom ∧ progress ≤ progressTo)
  else
    decide (progress ≥ progressFrom ∨ progress ≤ progressTo)

/-- float-mapping.ts `linearMap`.  Returns `none` where the source throws
`"No valid segment found"`. -/
def linearMap (xValues yValues : List ℚ) (x : ℚ) : Option ℚ :=
  match (List.range xValues.length).find?
      (fun i => progressInRange x (xValues.getD i 0)
        (xValues.getD ((i + 1) % xValues.length) 0)) with
  | none => none
  | some segmentStartIndex =>
    let segmentEndIndex := (segmentStartIndex + 1) % xValues.length
    let segmentSizeX :=
      positiveModulo (xValues.getD segmentEndIndex 0 - xValues.getD segmentStartIndex 0) 1
    let segmentSizeY :=
      positiveModulo (yValues.getD segmentEndIndex 0 - yValues.getD segmentStartIndex 0) 1
    let positionInSegment :=
      if segmentSizeX < 1 / 1000 then 1 / 2
      else positiveModulo (x - xValues.getD segmentStartIndex 0) 1 / segmentSizeX
    some (positiveModulo (yValues.getD segmentStartIndex 0 + segmentSizeY * positionInSegment) 1)

structure DoubleMapper where
  sourceValues : List ℚ
  targetValues : List ℚ
deriving DecidableEq, Repr

def DoubleMapper.ofMappings (mappings : List (ℚ × ℚ)) : DoubleMapper :=
  ⟨mappings.map Prod.fst, mappings.map Prod.snd⟩

def DoubleMapper.map (dm : DoubleMapper) (x : ℚ) : Option ℚ :=
  linearMap dm.sourceValues dm.targetValues x

def DoubleMapper.mapBack (dm : DoubleMapper) (x : ℚ) : Option ℚ :=
  linearMap dm.targetValues dm.sourceValues x

/-! ## morph.ts -/

/-- A `Morph` is identified by the match list its constructor produced. -/
structure Morph where
  morphMatch : List (Cubic × Cubic)
deriving DecidableEq, Repr

/-- The closing cubic appended at the end of `Morph.asCubics` (and of
`RoundedPolygon.buildCubicList`): the controls of the last cubic are kept
and its `anchor1` is replaced by the first cubic's `anchor0`. -/
def closingCubic (lastCubic firstCubic : Cubic) : Cubic :=
  ⟨lastCubic.a0x, lastCubic.a0y,
   lastCubic.c0x, lastCubic.c0y,
   lastCubic.c1x, lastCubic.c1y,
   firstCubic.a0x, firstCubic.a0y⟩

/-- Loop state of `Morph.asCubics`: the emitted list plus the buffered
`firstCubic` and `lastCubic` variables. -/
def morphLoop (progress : ℚ) :
    List (Cubic × Cubic) → List Cubic × Option Cubic × Option Cubic →
    List Cubic × Option Cubic × Option Cubic
  | [], st => st
  | ab :: rest, (ret, firstCubic, lastCubic) =>
    let cubic := Cubic.interpolate ab.1 ab.2 progress
    let firstCubic := match firstCubic with
      | none => some cubic
      | some f => some f
    let ret := match lastCubic with
      | none => ret
      | some l => ret ++ [l]
    morphLoop progress rest (ret, firstCubic, some cubic)

/-- morph.ts `Morph.asCubics`. -/
def Morph.asCubics (m : Morph) (progress : ℚ) : List Cubic :=
  match morphLoop progress m.morphMatch ([], none, none) with
  | (ret, some firstCubic, some lastCubic) => ret ++ [closingCubic lastCubic firstCubic]
  | (ret, _, _) => ret

/-- morph.ts `Morph.forEachCubic`: the sequence of cubic values delivered to
the callback (`MutableCubic.interpolate` overwrites all eight components of
the scratch cubic with the componentwise interpolation, so the scratch's
initial contents do not appear in the delivered values). -/
def Morph.forEachCubicList (m : Morph) (progress : ℚ) : List Cubic :=
  m.morphMatch.map (fun ab => Cubic.interpolate ab.1 ab.2 progress)

/-! ## feature.ts -/

/-- feature.ts tagged variants: `Edge` and `Corner{convex}`, each carrying
its cubics. -/
inductive Feature where
  | edge (cubics : List Cubic)
  | corner (cubics : List Cubic) (convex : Bool)
deriving DecidableEq, Repr

def Feature.cubics : Feature → List Cubic
  | .edge cubics => cubics
  | .corner cubics _ => cubics

def Feature.isCorner : Feature → Bool
  | .edge _ => false
  | .corner _ _ => true

/-! ## feature-mapping.ts -/

structure ProgressableFeature where
  progress : ℚ
  feature : Feature
deriving DecidableEq, Repr

structure DistanceVertex where
  distance : ℚ
  f1 : ProgressableFeature
  f2 : ProgressableFeature
deriving DecidableEq, Repr

def IdentityMapping : List (ℚ × ℚ) := [(0, 0), (1 / 2, 1 / 2)]

def featureRepresentativePoint (feature : Feature) : Point :=
  let x := ((feature.cubics.getD 0 default).a0x +
    (feature.cubics.getLastD default).a1x) / 2
  let y := ((feature.cubics.getD 0 default).a0y +
    (feature.cubics.getLastD default).a1y) / 2
  ⟨x, y⟩

/-- feature-mapping.ts `featureDistSquared`.  The source returns
`Number.MAX_VALUE` for corners of differing convexity and callers compare
against that sentinel; the sentinel is modelled as `none`. -/
def featureDistSquared (f1 f2 : Feature) : Option ℚ :=
  match f1, f2 with
  | .corner _ convex1, .corner _ convex2 =>
    if convex1 ≠ convex2 then none
    else some ((featureRepresentativePoint f1).minus (featureRepresentativePoint f2)).getDistanceSquared
  | _, _ =>
    some ((featureRepresentativePoint f1).minus (featureRepresentativePoint f2)).getDistanceSquared

def progressDistance (p1 p2 : ℚ) : ℚ :=
  min |p1 - p2| (1 - |p1 - p2|)

/-- Stable insertion of a `DistanceVertex` into a list that is already
sorted ascending by distance; models the stable JavaScript
`Array.prototype.sort` with comparator `a.distance - b.distance`. -/
def insertByDistance (a : DistanceVertex) : List DistanceVertex → List DistanceVertex
  | [] => [a]
  | b :: l => if a.distance ≤ b.distance then a :: b :: l else b :: insertByDistance a l

def sortByDistance (l : List DistanceVertex) : List DistanceVertex :=
  l.foldr insertByDistance []

/-- State of feature-mapping.ts `MappingHelper`.  The JavaScript `Set`s hold
object references; in the embedding they hold the feature values themselves
(the pipeline only ever inserts the distinct objects built by the callers). -/
structure MappingHelper where
  mapping : List (ℚ × ℚ)
  usedF1 : List ProgressableFeature
  usedF2 : List ProgressableFeature
deriving DecidableEq, Repr

/-- feature-mapping.ts `MappingHelper.addMapping`.

The source computes `index = mapping.findIndex(x => x.a === f1.progress)`
(`-1` when absent) and `insertionIndex = -index - 1`, so when `f1.progress`
is not already present the insertion index is always `0` and the
neighbour lookups read `mapping[n - 1]` and `mapping[0]`.  When it is
present (`index = i ≥ 0`), `insertionIndex` is negative: the neighbour
reads become `mapping[(n - i - 2) % n]` and `mapping[(-i - 1) % n]` with
JavaScript remainder semantics (a negative index yields `undefined`,
except that `-1 % 1` and `-n % n` are `-0` which reads index `0`), every
comparison against `undefined` is false, and `splice` interprets the
negative index as `n + insertionIndex`.  Both paths are reproduced here;
`none` stands for an `undefined` neighbour. -/
def MappingHelper.addMapping (st : MappingHelper) (f1 f2 : ProgressableFeature) :
    MappingHelper :=
  if f1 ∈ st.usedF1 ∨ f2 ∈ st.usedF2 then st
  else
    let n := st.mapping.length
    let found := st.mapping.findIdx? (fun x => decide (x.1 = f1.progress))
    let beforePair : Option (ℚ × ℚ) :=
      match found with
      | none => if n ≥ 1 then some (st.mapping.getD ((n - 1) % n) (0, 0)) else none
      | some i =>
        if i + 2 ≤ n then some (st.mapping.getD (n - i - 2) (0, 0))
        else if n = 1 then some (st.mapping.getD 0 (0, 0))
        else none
    let afterPair : Option (ℚ × ℚ) :=
      match found with
      | none => if n ≥ 1 then some (st.mapping.getD 0 (0, 0)) else none
      | some i => if i + 1 = n then some (st.mapping.getD 0 (0, 0)) else none
    let spliceIndex : ℕ :=
      match found with
      | none => 0
      | some i => n - i - 1
    let tooClose : Bool :=
      match beforePair, afterPair with
      | some b, some a =>
        decide (progressDistance f1.progress b.1 < DistanceEpsilon ∨
          progressDistance f1.progress a.1 < DistanceEpsilon ∨
          progressDistance f2.progress b.2 < DistanceEpsilon ∨
          progressDistance f2.progress a.2 < DistanceEpsilon)
      | some b, none =>
        decide (progressDistance f1.progress b.1 < DistanceEpsilon ∨
          progressDistance f2.progress b.2 < DistanceEpsilon)
      | none, some a =>
        decide (progressDistance f1.progress a.1 < DistanceEpsilon ∨
          progressDistance f2.progress a.2 < DistanceEpsilon)
      | none, none => false
    let inRange : Bool :=
      match beforePair, afterPair with
      | some b, some a => progressInRange f2.progress b.2 a.2
      | some b, none => decide (f2.progress ≥ b.2)
      | none, some a => decide (f2.progress ≤ a.2)
      | none, none => false
    if n ≥ 1 ∧ tooClose then st
    else if n > 1 ∧ ¬inRange then st
    else
      { mapping := st.mapping.take spliceIndex ++ [(f1.progress, f2.progress)] ++
          st.mapping.drop spliceIndex,
        usedF1 := st.usedF1 ++ [f1],
        usedF2 := st.usedF2 ++ [f2] }

/-- feature-mapping.ts `doMapping`. -/
def doMapping (features1 features2 : List ProgressableFeature) : List (ℚ × ℚ) :=
  let distanceVertexList :=
    features1.flatMap (fun f1 =>
      features2.filterMap (fun f2 =>
        (featureDistSquared f1.feature f2.feature).map (fun d => DistanceVertex.mk d f1 f2)))
  let distanceVertexList := sortByDistance distanceVertexList
  match distanceVertexList with
  | [] => IdentityMapping
  | [dv] =>
    let p1 := dv.f1.progress
    let p2 := dv.f2.progress
    [(p1, p2), (jsMod (p1 + 1 / 2) 1, jsMod (p2 + 1 / 2) 1)]
  | _ =>
    (distanceVertexList.foldl (fun (st : MappingHelper) dv => st.addMapping dv.f1 dv.f2)
      ⟨[], [], []⟩).mapping

/-- feature-mapping.ts `featureMapper`. -/
def featureMapper (features1 features2 : List ProgressableFeature) : DoubleMapper :=
  let filteredFeatures1 := features1.filter (fun f => f.feature.isCorner)
  let filteredFeatures2 := features2.filter (fun f => f.feature.isCorner)
  DoubleMapper.ofMappings (doMapping filteredFeatures1 filteredFeatures2)

/-! ## rounded-polygon.ts -/

/-- Loop state of `RoundedPolygon.buildCubicList`: the emitted list plus the
buffered `firstCubic` and `lastCubic` variables. -/
structure BuildState where
  result : List Cubic
  firstCubic : Option Cubic
  lastCubic : Option Cubic
deriving DecidableEq, Repr

/-- One iteration of the inner loop of `buildCubicList` over a single cubic:
non-zero-length cubics are buffered through `lastCubic` (pushing the
previous one); zero-length cubics are dropped, patching the buffered
cubic's `anchor1` to the skipped cubic's `anchor1`. -/
def buildStep (st : BuildState) (cubic : Cubic) : BuildState :=
  if !cubic.zeroLength then
    { result := match st.lastCubic with
        | none => st.result
        | some l => st.result ++ [l],
      firstCubic := match st.firstCubic with
        | none => some cubic
        | some f => some f,
      lastCubic := some cubic }
  else
    match st.lastCubic with
    | none => st
    | some l => { st with lastCubic := some { l with a1x := cubic.a1x, a1y := cubic.a1y } }

/-- The sequence of cubics that `buildCubicList`'s outer loop visits: when
the first feature has three cubics, its middle cubic is split at `t = 0.5`
and the iteration starts at the tail half (so the cyclic seam lands
mid-corner), with the head half appended after all other features. -/
def processedCubics (features : List Feature) : List Cubic :=
  match features with
  | [] => []
  | f :: rest =>
    if f.cubics.length = 3 then
      let centerCubic := f.cubics.getD 1 default
      let s := centerCubic.split (1 / 2)
      [s.2, f.cubics.getD 2 default] ++ rest.flatMap Feature.cubics ++
        [f.cubics.getD 0 default, s.1]
    else
      (f :: rest).flatMap Feature.cubics

/-- Final step of `buildCubicList`: when both buffered cubics exist, append
the closing cubic; otherwise (empty / zero-sized polygon) emit the
single point cubic at the center. -/
def buildFinish (st : BuildState) (center : Point) : List Cubic :=
  match st.lastCubic, st.firstCubic with
  | some lastCubic, some firstCubic => st.result ++ [closingCubic lastCubic firstCubic]
  | _, _ =>
    st.result ++ [⟨center.x, center.y, center.x, center.y, center.x, center.y, center.x, center.y⟩]

/-- rounded-polygon.ts `RoundedPolygon.buildCubicList`. -/
def buildCubicList (features : List Feature) (center : Point) : List Cubic :=
  buildFinish ((processedCubics features).foldl buildStep ⟨[], none, none⟩) center

/-- The argument tuple that `RoundedPolygon.star` forwards to
`RoundedPolygon.fromVertices`. -/
structure FromVerticesCall where
  vertices : List ℚ
  rounding : CornerRounding
  perVertexRounding : Option (List CornerRounding)
  centerX : ℚ
  centerY : ℚ
deriving DecidableEq, Repr

/-- rounded-polygon.ts `starVerticesFromNumVerts`.  `rtc` stands for
`radialToCartesian`; its second argument is the rational multiplier `k` of
the angle `k·π` that the source computes (the source's trigonometry is an
environment primitive). -/
def starVerticesFromNumVerts (rtc : ℚ → ℚ → Point) (numVerticesPerRadius : ℕ)
    (radius innerRadius centerX centerY : ℚ) : List ℚ :=
  (List.range numVerticesPerRadius).flatMap (fun i =>
    let vertex := rtc radius (1 / numVerticesPerRadius * (2 * i))
    let inner := rtc innerRadius (1 / numVerticesPerRadius * (2 * i + 1))
    [vertex.x + centerX, vertex.y + centerY, inner.x + centerX, inner.y + centerY])

/-- rounded-polygon.ts `RoundedPolygon.star`, modelled down to the argument
tuple it passes to `fromVertices`.  The source synthesizes an alternating
per-vertex rounding list (`Array.from({ length }).flatMap(() => [rounding,
innerRounding])`, where `length` is the enclosing global, embedded here as
`jsGlobalLength`) but then forwards the original `perVertexRounding`
argument, not the synthesized list. -/
def star (rtc : ℚ → ℚ → Point) (jsGlobalLength : ℕ) (numVerticesPerRadius : ℕ)
    (radius innerRadius : ℚ) (rounding : CornerRounding)
    (innerRounding : Option CornerRounding)
    (perVertexRounding : Option (List CornerRounding))
    (centerX centerY : ℚ) : FromVerticesCall :=
  let _pvRounding : Option (List CornerRounding) :=
    match perVertexRounding, innerRounding with
    | none, some ir => some ((List.range jsGlobalLength).flatMap (fun _ => [rounding, ir]))
    | pv, _ => pv
  ⟨starVerticesFromNumVerts rtc numVerticesPerRadius radius innerRadius centerX centerY,
   rounding, perVertexRounding, centerX, centerY⟩

/-! ## utils.ts `coerceIn` -/

/-- The runtime shapes that typed callers can pass to `coerceIn`: the
two-number form, the single range-object form, and the single-number form
(which is not a range object). -/
inductive CoerceArg where
  | twoNums (mn mx : ℚ)
  | oneRange (start endInclusive : ℚ)
  | oneNum (mn : ℚ)
deriving DecidableEq, Repr

/-- The two-number branch of `coerceIn`: swaps the bounds when they are in
the wrong order, then clamps. -/
def coerceIn2 (value mn mx : ℚ) : ℚ :=
  let p := if mn ≤ mx then (mn, mx) else (mx, mn)
  max p.1 (min p.2 value)

/-- utils.ts `coerceIn`; `Except.error` models the thrown `Error`. -/
def coerceIn (value : ℚ) : CoerceArg → Except String ℚ
  | .oneRange start endInclusive => .ok (max start (min endInclusive value))
  | .oneNum _ => .error "Invalid arguments for coerceIn"
  | .twoNums mn mx => .ok (coerceIn2 value mn mx)

/-! ## polygon-measure.ts -/

/-- The `Measurer` interface: a size for a cubic and a cut parameter for a
measure along it. -/
structure Measurer where
  measureCubic : Cubic → ℚ
  findCubicCutPoint : Cubic → ℚ → ℚ

/-- polygon-measure.ts `LengthMeasurer.segments`. -/
def LengthMeasurer.segments : ℕ := 3

/-- Body of the loop of `LengthMeasurer.closestProgressTo` over the list of
loop indices (the source iterates `for (let i = 1; i < this.segments; i++)`,
so the index list is `[1, …, segments - 1]`).  `remainder` is an
`Option ℚ` whose `none` models the `+∞` threshold used by `measureCubic`
(a finite chord is never `≥ +∞`, and `+∞ - chord = +∞`); the second
component of the result likewise returns the original threshold on the
early-return path and `some total` at the end of the loop. -/
def LengthMeasurer.loop (sq : ℚ → ℚ) (cubic : Cubic) (threshold : Option ℚ) :
    List ℕ → ℚ → Option ℚ → Point → ℚ × Option ℚ
  | [], total, _, _ => (1, some total)
  | i :: rest, total, remainder, prev =>
    let progress : ℚ := (i : ℚ) / (LengthMeasurer.segments : ℚ)
    let point := cubic.pointOnCurve progress
    let segment := (point.minus prev).getDistance sq
    match remainder with
    | some r =>
      if segment ≥ r then
        (progress - (1 - r / segment) / (LengthMeasurer.segments : ℚ), threshold)
      else
        LengthMeasurer.loop sq cubic threshold rest (total + segment) (some (r - segment)) point
    | none =>
      LengthMeasurer.loop sq cubic threshold rest (total + segment) none point

/-- polygon-measure.ts `LengthMeasurer.closestProgressTo`; `sq` stands for
`Math.sqrt` and a `none` threshold for `Number.POSITIVE_INFINITY`. -/
def LengthMeasurer.closestProgressTo (sq : ℚ → ℚ) (cubic : Cubic) (threshold : Option ℚ) :
    ℚ × Option ℚ :=
  LengthMeasurer.loop sq cubic threshold
    (List.range' 1 (LengthMeasurer.segments - 1)) 0 threshold ⟨cubic.a0x, cubic.a0y⟩

/-- polygon-measure.ts `LengthMeasurer.measureCubic` (threshold `+∞`; the
loop then always falls through to `(1, some total)`, so the default in
`getD` is never used). -/
def LengthMeasurer.measureCubic (sq : ℚ → ℚ) (c : Cubic) : ℚ :=
  (LengthMeasurer.closestProgressTo sq c none).2.getD 0

/-- polygon-measure.ts `LengthMeasurer.findCubicCutPoint`. -/
def LengthMeasurer.findCubicCutPoint (sq : ℚ → ℚ) (c : Cubic) (m : ℚ) : ℚ :=
  (LengthMeasurer.closestProgressTo sq c (some m)).1

/-- The `LengthMeasurer` packaged as a `Measurer`. -/
def LengthMeasurer.asMeasurer (sq : ℚ → ℚ) : Measurer :=
  ⟨LengthMeasurer.measureCubic sq, LengthMeasurer.findCubicCutPoint sq⟩

/-- polygon-measure.ts `MeasuredCubic` (the back-pointer to the owning
polygon is replaced by passing the measurer explicitly; `measuredSize` is
the value the constructor computes). -/
structure MeasuredCubic where
  cubic : Cubic
  startOutlineProgress : ℚ
  endOutlineProgress : ℚ
  measuredSize : ℚ
deriving DecidableEq, Repr

instance : Inhabited MeasuredCubic := ⟨⟨default, 0, 0, 0⟩⟩

def mkMeasuredCubic (measurer : Measurer) (cubic : Cubic)
    (startOutlineProgress endOutlineProgress : ℚ) : MeasuredCubic :=
  ⟨cubic, startOutlineProgress, endOutlineProgress, measurer.measureCubic cubic⟩

/-- polygon-measure.ts `MeasuredCubic.cutAtProgress`.  When the progress
range is empty the source divides by zero (IEEE `NaN`); the rational model
yields `0/0 = 0` instead, a path no covered claim exercises. -/
def MeasuredCubic.cutAtProgress (mc : MeasuredCubic) (measurer : Measurer)
    (cutOutlineProgress : ℚ) : MeasuredCubic × MeasuredCubic :=
  let boundedCutOutlineProgress :=
    coerceIn2 cutOutlineProgress mc.startOutlineProgress mc.endOutlineProgress
  let outlineProgressSize := mc.endOutlineProgress - mc.startOutlineProgress
  let progressFromStart := boundedCutOutlineProgress - mc.startOutlineProgress
  let relativeProgress := progressFromStart / outlineProgressSize
  let t := measurer.findCubicCutPoint mc.cubic (relativeProgress * mc.measuredSize)
  let s := mc.cubic.split t
  (mkMeasuredCubic measurer s.1 mc.startOutlineProgress boundedCutOutlineProgress,
   mkMeasuredCubic measurer s.2 boundedCutOutlineProgress mc.endOutlineProgress)

/-- Sets the last measured cubic's `endOutlineProgress` to exactly 1
(`measuredCubics[measuredCubics.length - 1].updateProgressRange(start, 1)`;
on an empty list the source throws on the `undefined` element). -/
def setLastEndToOne : List MeasuredCubic → List MeasuredCubic
  | [] => []
  | [mc] => [{ mc with endOutlineProgress := 1 }]
  | mc :: rest => mc :: setLastEndToOne rest

/-- The filtering loop of the `MeasuredPolygon` constructor: keeps cubics
whose outline-progress span exceeds `DistanceEpsilon`, re-basing each kept
cubic's start at the previous kept cubic's end. -/
def measuredCubicsLoop (measurer : Measurer) :
    List Cubic → List ℚ → ℚ → List MeasuredCubic
  | c :: cs, o0 :: o1 :: orest, startOutlineProgress =>
    if o1 - o0 > DistanceEpsilon then
      mkMeasuredCubic measurer c startOutlineProgress o1 ::
        measuredCubicsLoop measurer cs (o1 :: orest) o1
    else
      measuredCubicsLoop measurer cs (o1 :: orest) startOutlineProgress
  | _, _, _ => []

structure MeasuredPolygon where
  measurer : Measurer
  features : List ProgressableFeature
  outlineProgress : List ℚ
  cubics : List MeasuredCubic

/-- The `MeasuredPolygon` constructor. -/
def mkMeasuredPolygon (measurer : Measurer) (features : List ProgressableFeature)
    (cubics : List Cubic) (outlineProgress : List ℚ) : MeasuredPolygon :=
  ⟨measurer, features, outlineProgress,
   setLastEndToOne (measuredCubicsLoop measurer cubics outlineProgress 0)⟩

/-- polygon-measure.ts `MeasuredPolygon.cutAndShift`.  `none` models the
crash the source hits when `findIndex` returns `-1` (reading a method of
`undefined`), a path unreachable for well-formed progress ranges. -/
def MeasuredPolygon.cutAndShift (p : MeasuredPolygon) (cuttingPoint : ℚ) :
    Option MeasuredPolygon :=
  if cuttingPoint < DistanceEpsilon then some p
  else
    match p.cubics.findIdx? (fun it =>
        decide (cuttingPoint ≥ it.startOutlineProgress ∧
          cuttingPoint ≤ it.endOutlineProgress)) with
    | none => none
    | some targetIndex =>
      let n := p.cubics.length
      let target := p.cubics.getD targetIndex default
      let s := target.cutAtProgress p.measurer cuttingPoint
      let retCubics := s.2.cubic ::
        ((List.range' 1 (n - 1)).map (fun i =>
          (p.cubics.getD ((i + targetIndex) % n) default).cubic)) ++ [s.1.cubic]
      let retOutlineProgress := (List.range (n + 2)).map (fun i =>
        if i = 0 then 0
        else if i = n + 1 then 1
        else
          positiveModulo
            ((p.cubics.getD ((targetIndex + i - 1) % n) default).endOutlineProgress -
              cuttingPoint) 1)
      let newFeatures := p.features.map (fun f =>
        ProgressableFeature.mk (positiveModulo (f.progress - cuttingPoint) 1) f.feature)
      some (mkMeasuredPolygon p.measurer newFeatures retCubics retOutlineProgress)

/-! ## Statement-side definitions

The following definitions do not come from the source: they formalize
wording of the specification claims so that the claims can be stated and
compared against the embedded code. -/

/-- Stable insertion sort of anchor pairs by their first component, used to
state cyclic order preservation. -/
def insertByFst (a : ℚ × ℚ) : List (ℚ × ℚ) → List (ℚ × ℚ)
  | [] => [a]
  | b :: l => if a.1 ≤ b.1 then a :: b :: l else b :: insertByFst a l

def sortByFst (l : List (ℚ × ℚ)) : List (ℚ × ℚ) :=
  l.foldr insertByFst []

/-- Total fractional winding of the second components along the cyclic
traversal of a pair list. -/
def windingSum (l : List (ℚ × ℚ)) : ℚ :=
  ((l.zip (l.rotate 1)).map (fun pq => Int.fract (pq.2.2 - pq.1.2))).sum

/-- Modelled from the claim's words: a set of anchor pairs is cyclically
order-preserving when traversing the `a` values in increasing cyclic order
visits the `b` values in increasing cyclic order, i.e. the `b` values wind
around the circle exactly once (a list with at most one pair is trivially
order-preserving). -/
def cyclicallyOrderPreserving (l : List (ℚ × ℚ)) : Prop :=
  l.length ≤ 1 ∨ windingSum (sortByFst l) = 1

instance (l : List (ℚ × ℚ)) : Decidable (cyclicallyOrderPreserving l) := by
  unfold cyclicallyOrderPreserving
  infer_instance

/-- Modelled from the claim's words (C7): the cubic sequence obtained from
a raw interpolated sequence by replacing the last cubic's `anchor1` with
the first cubic's `anchor0` (the closing-cubic substitution that
`asCubics` performs and `forEachCubic` does not). -/
def closeLoop : List Cubic → List Cubic
  | [] => []
  | c :: cs => (c :: cs).dropLast ++ [closingCubic ((c :: cs).getLastD default) c]

/-! ## Helper lemmas about the morph loop -/

lemma morphLoop_some (p : ℚ) (xs : List (Cubic × Cubic)) :
    ∀ (r : List Cubic) (f l : Cubic),
    morphLoop p xs (r, some f, some l) =
      (r ++ (l :: xs.map (fun ab => Cubic.interpolate ab.1 ab.2 p)).dropLast, some f,
       some ((l :: xs.map (fun ab => Cubic.interpolate ab.1 ab.2 p)).getLastD default)) := by
  induction xs with
  | nil => intro r f l; simp [morphLoop]
  | cons ab rest ih =>
    intro r f l
    simp only [morphLoop, List.map_cons]
    rw [ih]
    simp [List.getLastD, List.append_assoc]

lemma asCubics_eq_closeLoop (m : Morph) (p : ℚ) :
    m.asCubics p = closeLoop (m.forEachCubicList p) := by
  unfold Morph.asCubics Morph.forEachCubicList
  match hm : m.morphMatch with
  | [] => simp [morphLoop, closeLoop]
  | ab :: rest =>
    simp only [morphLoop, List.map_cons]
    rw [morphLoop_some]
    rfl

lemma closeLoop_length (l : List Cubic) : (closeLoop l).length = l.length := by
  cases l with
  | nil => simp [closeLoop]
  | cons c cs => simp [closeLoop]

/-! ## Claim C1 -/

/-- Claim C1 (corrected): for every `Morph` and every progress, `asCubics`
returns a list whose length is exactly `|morphMatch|` — not
`|morphMatch| + 1`: the closing cubic replaces the final interpolated
cubic instead of being appended after it.  The length is the same for
every progress since the right-hand side does not mention the progress. -/
theorem c1_asCubics_length (m : Morph) (progress : ℚ) :
    (m.asCubics progress).length = m.morphMatch.length := by
  rw [asCubics_eq_closeLoop, closeLoop_length]
  simp [Morph.forEachCubicList]

/-- Claim C1 counterexample: a morph whose match list has one pair yields a
single cubic from `asCubics`, not two. -/
theorem c1_counterexample :
    ¬((Morph.asCubics ⟨[(⟨0, 0, 0, 0, 0, 0, 1, 0⟩, ⟨0, 0, 0, 0, 0, 0, 1, 0⟩)]⟩ 0).length =
      (Morph.mk [(⟨0, 0, 0, 0, 0, 0, 1, 0⟩, ⟨0, 0, 0, 0, 0, 0, 1, 0⟩)]).morphMatch.length + 1) := by
  simp [asCubics_eq_closeLoop, closeLoop_length, Morph.forEachCubicList]

/-- Witness for claim C1's theorem (instantiating its universally
quantified morph at a concrete value). -/
theorem c1_witness :
    (Morph.asCubics ⟨[(⟨0, 0, 0, 0, 0, 0, 2, 0⟩, ⟨0, 0, 0, 0, 0, 0, 2, 0⟩)]⟩ (1 / 2)).length =
      (Morph.mk [(⟨0, 0, 0, 0, 0, 0, 2, 0⟩, ⟨0, 0, 0, 0, 0, 0, 2, 0⟩)]).morphMatch.length :=
  c1_asCubics_length ⟨[(⟨0, 0, 0, 0, 0, 0, 2, 0⟩, ⟨0, 0, 0, 0, 0, 0, 2, 0⟩)]⟩ (1 / 2)

/-! ## Claim C7 -/

/-- Claim C7 (corrected): `forEachCubic` delivers one interpolated cubic
per match pair, and this sequence agrees with `asCubics(progress)` on
every element except the last: `asCubics` substitutes the closing cubic
(same cubic with `anchor1` replaced by the first cubic's `anchor0`).  In
particular the two sequences have the same count, but they are not
componentwise equal in general. -/
theorem c7_forEachCubic_asCubics (m : Morph) (progress : ℚ) :
    m.asCubics progress = closeLoop (m.forEachCubicList progress) ∧
    (m.forEachCubicList progress).length = (m.asCubics progress).length := by
  refine ⟨asCubics_eq_closeLoop m progress, ?_⟩
  rw [asCubics_eq_closeLoop, closeLoop_length]

/-- Claim C7 counterexample: for a one-pair morph whose cubic has distinct
anchors, the callback sequence of `forEachCubic` differs from the list
returned by `asCubics` (the latter closes the loop). -/
theorem c7_counterexample :
    Morph.forEachCubicList ⟨[(⟨0, 0, 0, 0, 0, 0, 3, 0⟩, ⟨0, 0, 0, 0, 0, 0, 3, 0⟩)]⟩ 0 ≠
      Morph.asCubics ⟨[(⟨0, 0, 0, 0, 0, 0, 3, 0⟩, ⟨0, 0, 0, 0, 0, 0, 3, 0⟩)]⟩ 0 := by
  norm_num [Morph.forEachCubicList, asCubics_eq_closeLoop, closeLoop, closingCubic,
    Cubic.interpolate, interpolate]

/-! ## Claim C9 -/

/-- Claim C9 counterexample: `coerceIn` called with `min = 10 > max = 0`
does not throw; it swaps the bounds and returns the clamped value. -/
theorem c9_counterexample : coerceIn 5 (CoerceArg.twoNums 10 0) = Except.ok 5 := rfl

/-- Claim C9 (corrected): `coerceIn` fails fast only in the single-argument
form when the argument is not a range object; in the two-number form with
`min > max` it swaps the bounds and returns the value clamped into
`[max, min]`. -/
theorem c9_coerceIn_amended (v mn mx : ℚ) :
    coerceIn v (CoerceArg.oneNum mn) = Except.error "Invalid arguments for coerceIn" ∧
    (mn > mx → coerceIn v (CoerceArg.twoNums mn mx) = Except.ok (max mx (min mn v))) := by
  refine ⟨rfl, fun h => ?_⟩
  simp [coerceIn, coerceIn2, if_neg (not_le.mpr h)]

/-- Witness for claim C9's theorem at concrete inputs. -/
theorem c9_witness :
    (3 : ℚ) > 1 ∧ coerceIn 7 (CoerceArg.twoNums 3 1) = Except.ok (max 1 (min 3 7)) :=
  ⟨by norm_num, (c9_coerceIn_amended 7 3 1).2 (by norm_num)⟩

/-! ## Claim C10 -/

/-- Claim C10 (confirmed): cutting below `DistanceEpsilon` returns the
polygon itself, unchanged — the source hits the early `return this` before
any split, rotation or progress shift. -/
theorem c10_cutAndShift_small (p : MeasuredPolygon) (cuttingPoint : ℚ)
    (h : cuttingPoint < DistanceEpsilon) :
    p.cutAndShift cuttingPoint = some p := by
  simp [MeasuredPolygon.cutAndShift, h]

/-- A concrete measured polygon for the claim C10 witness. -/
def c10Polygon : MeasuredPolygon :=
  ⟨⟨fun _ => 0, fun _ _ => 0⟩, [], [0, 1], [⟨default, 0, 1, 0⟩]⟩

/-- Witness for claim C10's theorem at a concrete polygon and cut point. -/
theorem c10_witness :
    (0 : ℚ) < DistanceEpsilon ∧ c10Polygon.cutAndShift 0 = some c10Polygon :=
  ⟨by norm_num [DistanceEpsilon], c10_cutAndShift_small c10Polygon 0 (by norm_num [DistanceEpsilon])⟩

/-! ## Claim C2 -/

/-- Claim C2 (code bug): `star` synthesizes the alternating per-vertex
rounding list when `innerRounding` is supplied and `perVertexRounding` is
not, but forwards the original `null` argument to `fromVertices`, so the
inner rounding is discarded; the forwarded list is `none` and in
particular differs from the alternating list the claim (and the source's
own comment) promise. -/
theorem c2_star_discards_inner_rounding :
    (star (fun _ _ => ⟨0, 0⟩) 0 3 1 (1 / 2) CornerRounding.Unrounded
        (some ⟨1 / 5, 0⟩) none 0 0).perVertexRounding = none ∧
    (none : Option (List CornerRounding)) ≠
      some ((List.range 3).flatMap (fun _ => [CornerRounding.Unrounded, (⟨1 / 5, 0⟩ : CornerRounding)])) := by
  exact ⟨rfl, by simp⟩

/-! ## Claim C4 -/

/-- Claim C4 (code bug): on the straight-line cubic with anchors `(0,0)`,
`(3,0)` and controls `(1,0)`, `(2,0)` (each of the three equal-parameter
chords has length 1, with `Math.sqrt` instantiated by the identity on
these rational squares), `measureCubic` returns 2 — the loop
`for (i = 1; i < segments; i++)` only accumulates the chords ending at
`t = 1/3` and `t = 2/3` — while the three-chord sum of the claim is 3. -/
theorem c4_measureCubic_two_chords :
    LengthMeasurer.measureCubic (fun q => q) ⟨0, 0, 1, 0, 2, 0, 3, 0⟩ = 2 ∧
    (((⟨0, 0, 1, 0, 2, 0, 3, 0⟩ : Cubic).pointOnCurve (1 / 3)).minus
        ((⟨0, 0, 1, 0, 2, 0, 3, 0⟩ : Cubic).pointOnCurve 0)).getDistance (fun q => q) +
      (((⟨0, 0, 1, 0, 2, 0, 3, 0⟩ : Cubic).pointOnCurve (2 / 3)).minus
        ((⟨0, 0, 1, 0, 2, 0, 3, 0⟩ : Cubic).pointOnCurve (1 / 3))).getDistance (fun q => q) +
      (((⟨0, 0, 1, 0, 2, 0, 3, 0⟩ : Cubic).pointOnCurve 1).minus
        ((⟨0, 0, 1, 0, 2, 0, 3, 0⟩ : Cubic).pointOnCurve (2 / 3))).getDistance (fun q => q) = 3 := by
  constructor
  · norm_num [LengthMeasurer.measureCubic, LengthMeasurer.closestProgressTo, LengthMeasurer.loop,
      LengthMeasurer.segments, List.range', Cubic.pointOnCurve, Point.minus, Point.getDistance]
  · norm_num [Cubic.pointOnCurve, Point.minus, Point.getDistance]

/-! ## Claim C3 -/

/-- Invariant of the `buildCubicList` fold: the buffered `firstCubic` and
`lastCubic` are absent together (with an empty emitted list), and when they
are present, the head of the would-be final list `result ++ [lastCubic]`
starts at `firstCubic`'s `anchor0`. -/
def BuildInv (st : BuildState) : Prop :=
  (st.firstCubic = none → st.lastCubic = none ∧ st.result = []) ∧
  (∀ f, st.firstCubic = some f → ∃ l, st.lastCubic = some l ∧
    ((st.result ++ [l]).head?.map (fun c => (c.a0x, c.a0y))) = some (f.a0x, f.a0y))

lemma head?_concat {α : Type} (xs : List α) (hne : xs ≠ []) (c : α) :
    (xs ++ [c]).head? = xs.head? := by
  cases xs with
  | nil => exact absurd rfl hne
  | cons a t => simp

lemma head?_concat_congr (r : List Cubic) (l l' : Cubic)
    (hx : l'.a0x = l.a0x) (hy : l'.a0y = l.a0y) :
    ((r ++ [l']).head?.map (fun c => (c.a0x, c.a0y))) =
      ((r ++ [l]).head?.map (fun c => (c.a0x, c.a0y))) := by
  cases r with
  | nil => simp [hx, hy]
  | cons a t => simp

lemma buildStep_inv : ∀ (st : BuildState), BuildInv st → ∀ (c : Cubic),
    BuildInv (buildStep st c) := by
  rintro ⟨r, fc, lc⟩ ⟨h1, h2⟩ c
  unfold buildStep
  by_cases hz : c.zeroLength
  · simp only [hz, Bool.not_true, Bool.false_eq_true, if_false]
    cases lc with
    | none => exact ⟨h1, h2⟩
    | some l =>
      cases fc with
      | none => exact absurd (h1 rfl).1 (by simp)
      | some f =>
        obtain ⟨l₀, hl₀, hhead⟩ := h2 f rfl
        obtain rfl : l = l₀ := by injection hl₀
        refine ⟨fun h => by simp at h, fun f' hf' => ?_⟩
        obtain rfl : f = f' := by injection hf'
        refine ⟨_, rfl, ?_⟩
        cases r with
        | nil => simpa using hhead
        | cons a t => simpa using hhead
  · simp only [Bool.not_eq_true] at hz
    simp only [hz, Bool.not_false, if_true]
    cases fc with
    | none =>
      obtain ⟨hlc, hrr⟩ := h1 rfl
      obtain rfl : lc = none := hlc
      obtain rfl : r = [] := hrr
      refine ⟨fun h => by simp at h, fun f' hf' => ?_⟩
      obtain rfl : c = f' := by injection hf'
      exact ⟨c, rfl, by simp⟩
    | some f =>
      obtain ⟨l, hl, hhead⟩ := h2 f rfl
      obtain rfl : lc = some l := hl
      refine ⟨fun h => by simp at h, fun f' hf' => ?_⟩
      obtain rfl : f = f' := by injection hf'
      refine ⟨c, rfl, ?_⟩
      cases r with
      | nil => simpa using hhead
      | cons a t => simpa using hhead

lemma buildFold_inv (cs : List Cubic) :
    ∀ (st : BuildState), BuildInv st → BuildInv (cs.foldl buildStep st) := by
  induction cs with
  | nil => intro st h; exact h
  | cons c rest ih => intro st h; exact ih _ (buildStep_inv st h c)

lemma buildFinish_closed (center : Point) : ∀ (st : BuildState), BuildInv st →
    buildFinish st center ≠ [] ∧
    ((buildFinish st center).getLast?.map Cubic.a1x =
      (buildFinish st center).head?.map Cubic.a0x) ∧
    ((buildFinish st center).getLast?.map Cubic.a1y =
      (buildFinish st center).head?.map Cubic.a0y) := by
  rintro ⟨r, fc, lc⟩ ⟨h1, h2⟩
  cases fc with
  | none =>
    obtain ⟨hlc, hrr⟩ := h1 rfl
    obtain rfl : lc = none := hlc
    obtain rfl : r = [] := hrr
    exact ⟨by simp [buildFinish], by simp [buildFinish], by simp [buildFinish]⟩
  | some f =>
    obtain ⟨l, hl, hhead⟩ := h2 f rfl
    obtain rfl : lc = some l := hl
    have hfin : buildFinish ⟨r, some f, some l⟩ center = r ++ [closingCubic l f] := rfl
    rw [hfin]
    refine ⟨by simp, ?_, ?_⟩
    · rw [List.getLast?_concat]
      cases r with
      | nil =>
        simp only [List.nil_append, List.head?_cons, Option.map_some] at hhead ⊢
        injection hhead with hpair
        have hx : l.a0x = f.a0x := congrArg Prod.fst hpair
        simp [closingCubic, hx]
      | cons a t =>
        simp only [List.cons_append, List.head?_cons, Option.map_some] at hhead ⊢
        injection hhead with hpair
        have hx : a.a0x = f.a0x := congrArg Prod.fst hpair
        simp [closingCubic, hx]
    · rw [List.getLast?_concat]
      cases r with
      | nil =>
        simp only [List.nil_append, List.head?_cons, Option.map_some] at hhead ⊢
        injection hhead with hpair
        have hy : l.a0y = f.a0y := congrArg Prod.snd hpair
        simp [closingCubic, hy]
      | cons a t =>
        simp only [List.cons_append, List.head?_cons, Option.map_some] at hhead ⊢
        injection hhead with hpair
        have hy : a.a0y = f.a0y := congrArg Prod.snd hpair
        simp [closingCubic, hy]

/-- Claim C3 (confirmed): for every feature list and center, the cubic list
built by `buildCubicList` is non-empty and its last cubic's `anchor1`
coordinates equal its first cubic's `anchor0` coordinates exactly. -/
theorem c3_buildCubicList_closed (features : List Feature) (center : Point) :
    buildCubicList features center ≠ [] ∧
    ((buildCubicList features center).getLast?.map Cubic.a1x =
      (buildCubicList features center).head?.map Cubic.a0x) ∧
    ((buildCubicList features center).getLast?.map Cubic.a1y =
      (buildCubicList features center).head?.map Cubic.a0y) :=
  buildFinish_closed center _
    (buildFold_inv (processedCubics features) ⟨[], none, none⟩
      ⟨fun _ => ⟨rfl, rfl⟩, fun f hf => by simp at hf⟩)

/-! ## Claim C8 -/

/-- Claim C8 (confirmed): `getCubics` returns the single zero-length cubic
sitting at `p1` (all four points equal to `p1`) exactly when
`expectedRoundCut`, `min(allowedCut0, allowedCut1)` or the corner radius is
below `DistanceEpsilon`, and otherwise returns exactly three cubics. -/
theorem c8_getCubics_cases (sq : ℚ → ℚ) (rc : RoundedCorner) (allowedCut0 allowedCut1 : ℚ) :
    ((RoundedCorner.getCubics sq rc allowedCut0 allowedCut1).length =
      if rc.expectedRoundCut < DistanceEpsilon ∨ min allowedCut0 allowedCut1 < DistanceEpsilon ∨
          rc.cornerRadius < DistanceEpsilon then 1 else 3) ∧
    (rc.expectedRoundCut < DistanceEpsilon ∨ min allowedCut0 allowedCut1 < DistanceEpsilon ∨
        rc.cornerRadius < DistanceEpsilon →
      RoundedCorner.getCubics sq rc allowedCut0 allowedCut1 =
        [⟨rc.p1.x, rc.p1.y, rc.p1.x, rc.p1.y, rc.p1.x, rc.p1.y, rc.p1.x, rc.p1.y⟩] ∧
      Cubic.zeroLength
        ⟨rc.p1.x, rc.p1.y, rc.p1.x, rc.p1.y, rc.p1.x, rc.p1.y, rc.p1.x, rc.p1.y⟩ = true) := by
  have hline : Cubic.straightLine rc.p1.x rc.p1.y rc.p1.x rc.p1.y =
      (⟨rc.p1.x, rc.p1.y, rc.p1.x, rc.p1.y, rc.p1.x, rc.p1.y, rc.p1.x, rc.p1.y⟩ : Cubic) := by
    simp only [Cubic.straightLine, interpolate, Cubic.mk.injEq]
    and_intros <;> first | trivial | ring
  by_cases hc : rc.expectedRoundCut < DistanceEpsilon ∨
      min allowedCut0 allowedCut1 < DistanceEpsilon ∨ rc.cornerRadius < DistanceEpsilon
  · refine ⟨?_, fun _ => ⟨?_, ?_⟩⟩
    · rw [if_pos hc]
      simp only [RoundedCorner.getCubics]
      rw [if_pos hc]
      rfl
    · simp only [RoundedCorner.getCubics]
      rw [if_pos hc, hline]
    · norm_num [Cubic.zeroLength, DistanceEpsilon]
  · refine ⟨?_, fun h => absurd h hc⟩
    rw [if_neg hc]
    simp only [RoundedCorner.getCubics]
    rw [if_neg hc]
    rfl

/-- A degenerate corner state (zero `expectedRoundCut` and radius) for the
claim C8 witness. -/
def c8Corner : RoundedCorner :=
  ⟨⟨0, 0⟩, ⟨1, 1⟩, ⟨2, 0⟩, ⟨0, 0⟩, ⟨0, 0⟩, 0, 0, 0, 0, 0⟩

/-- Witness for claim C8's theorem: at a concrete degenerate corner the
implication's hypothesis holds and `getCubics` returns the single
zero-length cubic at `p1 = (1, 1)`. -/
theorem c8_witness :
    (c8Corner.expectedRoundCut < DistanceEpsilon ∨ min 1 1 < DistanceEpsilon ∨
      c8Corner.cornerRadius < DistanceEpsilon) ∧
    RoundedCorner.getCubics (fun q => q) c8Corner 1 1 = [⟨1, 1, 1, 1, 1, 1, 1, 1⟩] := by
  have hc : c8Corner.expectedRoundCut < DistanceEpsilon ∨ (min 1 1 : ℚ) < DistanceEpsilon ∨
      c8Corner.cornerRadius < DistanceEpsilon := by
    norm_num [c8Corner, DistanceEpsilon]
  refine ⟨hc, ?_⟩
  have h := ((c8_getCubics_cases (fun q => q) c8Corner 1 1).2 hc).1
  simpa [c8Corner] using h

/-! ## Claim C5 -/

/-- Corner feature at progress 0 with representative point `(0,0)`. -/
def fA1 : ProgressableFeature := ⟨0, .corner [⟨0, 0, 0, 0, 0, 0, 0, 0⟩] true⟩

/-- Corner feature at progress 2/5 with representative point `(10,0)`. -/
def fB1 : ProgressableFeature := ⟨2 / 5, .corner [⟨10, 0, 10, 0, 10, 0, 10, 0⟩] true⟩

/-- Corner feature at progress 3/5 with representative point `(20,0)`. -/
def fC1 : ProgressableFeature := ⟨3 / 5, .corner [⟨20, 0, 20, 0, 20, 0, 20, 0⟩] true⟩

/-- Corner feature at progress 0 with representative point `(0,0)`. -/
def fA2 : ProgressableFeature := ⟨0, .corner [⟨0, 0, 0, 0, 0, 0, 0, 0⟩] true⟩

/-- Corner feature at progress 2/5 with representative point `(10,1)`. -/
def fB2 : ProgressableFeature := ⟨2 / 5, .corner [⟨10, 1, 10, 1, 10, 1, 10, 1⟩] true⟩

/-- Corner feature at progress 1/5 with representative point `(20,2)`. -/
def fC2 : ProgressableFeature := ⟨1 / 5, .corner [⟨20, 2, 20, 2, 20, 2, 20, 2⟩] true⟩

def c5Features1 : List ProgressableFeature := [fA1, fB1, fC1]

def c5Features2 : List ProgressableFeature := [fA2, fB2, fC2]

lemma c5_flat :
    c5Features1.flatMap (fun f1 =>
      c5Features2.filterMap (fun f2 =>
        (featureDistSquared f1.feature f2.feature).map (fun d => DistanceVertex.mk d f1 f2))) =
    [⟨0, fA1, fA2⟩, ⟨101, fA1, fB2⟩, ⟨404, fA1, fC2⟩,
     ⟨100, fB1, fA2⟩, ⟨1, fB1, fB2⟩, ⟨104, fB1, fC2⟩,
     ⟨400, fC1, fA2⟩, ⟨101, fC1, fB2⟩, ⟨4, fC1, fC2⟩] := by
  norm_num [c5Features1, c5Features2, fA1, fB1, fC1, fA2, fB2, fC2, featureDistSquared,
    featureRepresentativePoint, Feature.cubics, Point.minus, Point.getDistanceSquared,
    List.flatMap_cons, List.flatMap_nil, List.filterMap_cons, List.filterMap_nil]

lemma c5_sorted :
    sortByDistance
      [⟨0, fA1, fA2⟩, ⟨101, fA1, fB2⟩, ⟨404, fA1, fC2⟩,
       ⟨100, fB1, fA2⟩, ⟨1, fB1, fB2⟩, ⟨104, fB1, fC2⟩,
       ⟨400, fC1, fA2⟩, ⟨101, fC1, fB2⟩, ⟨4, fC1, fC2⟩] =
    [⟨0, fA1, fA2⟩, ⟨1, fB1, fB2⟩, ⟨4, fC1, fC2⟩,
     ⟨100, fB1, fA2⟩, ⟨101, fA1, fB2⟩, ⟨101, fC1, fB2⟩,
     ⟨104, fB1, fC2⟩, ⟨400, fC1, fA2⟩, ⟨404, fA1, fC2⟩] := by
  norm_num [sortByDistance, insertByDistance]

lemma c5_s1 : MappingHelper.addMapping ⟨[], [], []⟩ fA1 fA2 = ⟨[(0, 0)], [fA1], [fA2]⟩ := by
  norm_num [MappingHelper.addMapping, fA1, fA2]

lemma c5_s2 : MappingHelper.addMapping ⟨[(0, 0)], [fA1], [fA2]⟩ fB1 fB2 =
    ⟨[(2 / 5, 2 / 5), (0, 0)], [fA1, fB1], [fA2, fB2]⟩ := by
  norm_num [MappingHelper.addMapping, fA1, fA2, fB1, fB2, progressDistance, progressInRange,
    DistanceEpsilon, List.findIdx?, List.getD, abs_of_nonneg]

lemma c5_s3 : MappingHelper.addMapping ⟨[(2 / 5, 2 / 5), (0, 0)], [fA1, fB1], [fA2, fB2]⟩ fC1 fC2 =
    ⟨[(3 / 5, 1 / 5), (2 / 5, 2 / 5), (0, 0)], [fA1, fB1, fC1], [fA2, fB2, fC2]⟩ := by
  norm_num [MappingHelper.addMapping, fA1, fA2, fB1, fB2, fC1, fC2, progressDistance,
    progressInRange, DistanceEpsilon, List.findIdx?, List.getD, abs_of_nonneg]

lemma c5_used (f1 f2 : ProgressableFeature) (h : f1 ∈ [fA1, fB1, fC1]) :
    MappingHelper.addMapping
      ⟨[(3 / 5, 1 / 5), (2 / 5, 2 / 5), (0, 0)], [fA1, fB1, fC1], [fA2, fB2, fC2]⟩ f1 f2 =
    ⟨[(3 / 5, 1 / 5), (2 / 5, 2 / 5), (0, 0)], [fA1, fB1, fC1], [fA2, fB2, fC2]⟩ := by
  unfold MappingHelper.addMapping
  rw [if_pos (Or.inl h)]

lemma c5_do : doMapping c5Features1 c5Features2 = [(3 / 5, 1 / 5), (2 / 5, 2 / 5), (0, 0)] := by
  unfold doMapping
  rw [c5_flat]
  simp only [c5_sorted]
  simp only [List.foldl_cons, List.foldl_nil]
  rw [c5_s1, c5_s2, c5_s3, c5_used fB1 fA2 (by simp), c5_used fA1 fB2 (by simp),
    c5_used fC1 fB2 (by simp), c5_used fB1 fC2 (by simp), c5_used fC1 fA2 (by simp),
    c5_used fA1 fC2 (by simp)]

/-- Claim C5 counterexample (code bug): on the two corner lists above,
`featureMapper` accepts the anchor pairs `(0,0)`, `(2/5,2/5)` and
`(3/5,1/5)`, which are not cyclically order-preserving — traversing the
`a` values `0, 2/5, 3/5` visits `0, 2/5, 1/5`, whose fractional winding is
2, a crossing.  The monotonicity guard compared `1/5` against the interval
`[0, 2/5]` (the last and first stored pairs) instead of the cyclic
neighbours of `3/5` in sorted order, because the insertion index computed
with `findIndex` is always 0. -/
theorem c5_counterexample :
    featureMapper c5Features1 c5Features2 =
      DoubleMapper.mk [3 / 5, 2 / 5, 0] [1 / 5, 2 / 5, 0] ∧
    ¬cyclicallyOrderPreserving
      (List.zip (featureMapper c5Features1 c5Features2).sourceValues
        (featureMapper c5Features1 c5Features2).targetValues) := by
  have hfilter1 : c5Features1.filter (fun f => f.feature.isCorner) = c5Features1 := by
    norm_num [c5Features1, fA1, fB1, fC1, Feature.isCorner]
  have hfilter2 : c5Features2.filter (fun f => f.feature.isCorner) = c5Features2 := by
    norm_num [c5Features2, fA2, fB2, fC2, Feature.isCorner]
  have h : featureMapper c5Features1 c5Features2 =
      DoubleMapper.mk [3 / 5, 2 / 5, 0] [1 / 5, 2 / 5, 0] := by
    unfold featureMapper
    rw [hfilter1, hfilter2]
    show DoubleMapper.ofMappings (doMapping c5Features1 c5Features2) = _
    rw [c5_do]
    rfl
  refine ⟨h, ?_⟩
  rw [h]
  show ¬cyclicallyOrderPreserving [(3 / 5, 1 / 5), (2 / 5, 2 / 5), (0, 0)]
  have hsort : sortByFst [(3 / 5, 1 / 5), (2 / 5, 2 / 5), (0, 0)] =
      [(0, 0), (2 / 5, 2 / 5), (3 / 5, 1 / 5)] := by
    norm_num [sortByFst, insertByFst]
  have hwind : windingSum [(0, 0), (2 / 5, 2 / 5), ((3 : ℚ) / 5, (1 : ℚ) / 5)] = 2 := by
    simp [windingSum, List.rotate_cons_succ, List.rotate_zero]
    norm_num [Int.fract]
  unfold cyclicallyOrderPreserving
  rw [hsort, hwind]
  norm_num

/-! ## Claim C6: the fractional-part bridge -/

lemma jsMod_one (a : ℚ) : jsMod a 1 = a - jsTrunc a := by
  simp [jsMod]

lemma jsTrunc_of_not_lt {q : ℚ} (h : ¬(q < 0)) : jsTrunc q = ⌊q⌋ := by
  unfold jsTrunc
  exact if_neg h

lemma sub_jsTrunc_bounds (a : ℚ) : -1 < a - jsTrunc a ∧ a - jsTrunc a < 1 := by
  unfold jsTrunc
  by_cases h : a < 0
  · rw [if_pos h]
    push_cast
    have h1 := Int.floor_le (-a)
    have h2 := Int.lt_floor_add_one (-a)
    constructor <;> linarith
  · rw [if_neg h]
    have h1 := Int.floor_le a
    have h2 := Int.lt_floor_add_one a
    constructor <;> linarith

/-- ``positiveModulo`` with modulus 1 is the fractional part. -/
lemma positiveModulo_one (x : ℚ) : positiveModulo x 1 = Int.fract x := by
  unfold positiveModulo
  rw [jsMod_one x, jsMod_one (x - jsTrunc x + 1)]
  obtain ⟨hb1, hb2⟩ := sub_jsTrunc_bounds x
  have h0 : ¬(x - jsTrunc x + 1 < 0) := by linarith
  rw [jsTrunc_of_not_lt h0]
  have h1 : x - (jsTrunc x : ℚ) + 1 - ⌊x - (jsTrunc x : ℚ) + 1⌋ = Int.fract (x - jsTrunc x + 1) := by
    unfold Int.fract
    ring
  rw [h1]
  rw [show x - (jsTrunc x : ℚ) + 1 = x - jsTrunc x + (1 : ℤ) by push_cast; ring]
  rw [Int.fract_add_int, Int.fract_sub_int]

lemma fract_sub_cases {u v : ℚ} (hu : 0 ≤ u ∧ u < 1) (hv : 0 ≤ v ∧ v < 1) :
    Int.fract (u - v) = if v ≤ u then u - v else u - v + 1 := by
  by_cases h : v ≤ u
  · rw [if_pos h, Int.fract_eq_self.mpr ⟨by linarith, by linarith⟩]
  · rw [if_neg h]
    rw [Int.fract_eq_iff]
    refine ⟨by linarith, by linarith, ⟨-1, by push_cast; ring⟩⟩

lemma fract_add_fract (a b : ℚ) : Int.fract (a + Int.fract b) = Int.fract (a + b) := by
  have h : a + Int.fract b = a + b - (⌊b⌋ : ℤ) := by unfold Int.fract; ring
  rw [h, Int.fract_sub_int]

/-! ## Claim C6: counterexample -/

/-- Claim C6 counterexample: the two anchor pairs `(0,0)` and
`(1/2000, 1/2)` lie in `[0,1)` and are cyclically order-preserving, yet
`mapBack(map(1/5000)) = 1/4000`, at circular distance `1/20000` from
`1/5000` — far beyond `1e-9`.  The source segment `[0, 1/2000]` is
narrower than the `0.001` degeneracy threshold, so `map` sends every
point of it to the target segment's midpoint. -/
theorem c6_counterexample :
    ((0 : ℚ) ≤ 0 ∧ (0 : ℚ) < 1) ∧ ((0 : ℚ) ≤ 1 / 2000 ∧ (1 / 2000 : ℚ) < 1) ∧
    ((0 : ℚ) ≤ 1 / 2 ∧ (1 / 2 : ℚ) < 1) ∧
    cyclicallyOrderPreserving [(0, 0), (1 / 2000, 1 / 2)] ∧
    DoubleMapper.map ⟨[0, 1 / 2000], [0, 1 / 2]⟩ (1 / 5000) = some (1 / 4) ∧
    DoubleMapper.mapBack ⟨[0, 1 / 2000], [0, 1 / 2]⟩ (1 / 4) = some (1 / 4000) ∧
    ¬(progressDistance (1 / 4000) (1 / 5000) < 1 / 1000000000) := by
  refine ⟨⟨le_refl 0, by norm_num⟩, ⟨by norm_num, by norm_num⟩, ⟨by norm_num, by norm_num⟩,
    ?_, ?_, ?_, ?_⟩
  · unfold cyclicallyOrderPreserving
    right
    have hsort : sortByFst [((0 : ℚ), (0 : ℚ)), (1 / 2000, 1 / 2)] =
        [(0, 0), (1 / 2000, 1 / 2)] := by
      norm_num [sortByFst, insertByFst]
    rw [hsort]
    simp [windingSum, List.rotate_cons_succ, List.rotate_zero]
    norm_num [Int.fract]
  · unfold DoubleMapper.map linearMap
    norm_num [List.range_succ, List.find?, progressInRange, List.getD, positiveModulo,
      jsMod, jsTrunc]
  · unfold DoubleMapper.mapBack linearMap
    norm_num [List.range_succ, List.find?, progressInRange, List.getD, positiveModulo,
      jsMod, jsTrunc]
  · norm_num [progressDistance, abs_of_nonneg]

/-! ## Claim C6: cyclic partitions -/

/-- The cyclic gap after anchor `i` of the value list `xs`. -/
def cgap (xs : List ℚ) (i : ℕ) : ℚ :=
  Int.fract (xs.getD ((i + 1) % xs.length) 0 - xs.getD i 0)

/-- Partial sum of the first `k` cyclic gaps. -/
def psum (xs : List ℚ) (k : ℕ) : ℚ :=
  ((List.range k).map (cgap xs)).sum

/-- A value list whose cyclic gaps are at least the `0.001` degeneracy
threshold of `linearMap` and wind around the circle exactly once: the
anchors are listed in cyclic order, pairwise at least `0.001` apart, and
partition `[0,1)`. -/
structure IsCyclicPartition (xs : List ℚ) : Prop where
  mem01 : ∀ i < xs.length, 0 ≤ xs.getD i 0 ∧ xs.getD i 0 < 1
  gapLB : ∀ i < xs.length, 1 / 1000 ≤ cgap xs i
  sumEq : psum xs xs.length = 1

lemma psum_zero (xs : List ℚ) : psum xs 0 = 0 := by simp [psum]

lemma psum_succ (xs : List ℚ) (k : ℕ) : psum xs (k + 1) = psum xs k + cgap xs k := by
  simp [psum, List.range_succ]

lemma cgap_nonneg (xs : List ℚ) (i : ℕ) : 0 ≤ cgap xs i := Int.fract_nonneg _

lemma psum_nonneg (xs : List ℚ) (k : ℕ) : 0 ≤ psum xs k := by
  induction k with
  | zero => simp [psum_zero]
  | succ k ih => rw [psum_succ]; have := cgap_nonneg xs k; linarith

lemma cp_two_le {xs : List ℚ} (hp : IsCyclicPartition xs) : 2 ≤ xs.length := by
  rcases hn : xs.length with _ | _ | m
  · exact absurd (hp.sumEq) (by rw [hn, psum_zero]; norm_num)
  · have hg := hp.gapLB 0 (by rw [hn]; norm_num)
    have : cgap xs 0 = 0 := by
      unfold cgap
      rw [hn]
      norm_num
    rw [this] at hg
    norm_num at hg
  · omega

lemma psum_lt {xs : List ℚ} (hp : IsCyclicPartition xs) :
    ∀ {j k : ℕ}, j < k → k ≤ xs.length → psum xs j < psum xs k := by
  intro j k
  induction k with
  | zero => intro h _; exact absurd h (Nat.not_lt_zero j)
  | succ k ih =>
    intro hjk hk
    have hkn : k < xs.length := hk
    have hg := hp.gapLB k hkn
    rcases Nat.lt_succ_iff_lt_or_eq.mp hjk with h | h
    · have := ih h (le_of_lt hkn)
      rw [psum_succ]
      linarith
    · subst h
      rw [psum_succ]
      linarith

lemma psum_le {xs : List ℚ} (hp : IsCyclicPartition xs) {j k : ℕ}
    (hjk : j ≤ k) (hk : k ≤ xs.length) : psum xs j ≤ psum xs k := by
  rcases Nat.lt_or_ge j k with h | h
  · exact le_of_lt (psum_lt hp h hk)
  · obtain rfl : j = k := le_antisymm (by omega) h
    exact le_refl _

lemma psum_lt_one {xs : List ℚ} (hp : IsCyclicPartition xs) {k : ℕ}
    (hk : k < xs.length) : psum xs k < 1 := by
  have := psum_lt hp hk (le_refl xs.length)
  rw [hp.sumEq] at this
  exact this

lemma psum_le_one {xs : List ℚ} (hp : IsCyclicPartition xs) {k : ℕ}
    (hk : k ≤ xs.length) : psum xs k ≤ 1 := by
  rcases Nat.lt_or_ge k xs.length with h | h
  · exact le_of_lt (psum_lt_one hp h)
  · obtain rfl : k = xs.length := le_antisymm hk h
    rw [hp.sumEq]

/-- Index-to-offset law: the anchor at cyclic position `i` is the base
anchor shifted by the partial gap sum. -/
lemma cp_v_eq {xs : List ℚ} (hp : IsCyclicPartition xs) :
    ∀ i ≤ xs.length, xs.getD (i % xs.length) 0 = Int.fract (xs.getD 0 0 + psum xs i) := by
  have hn : 2 ≤ xs.length := cp_two_le hp
  intro i
  induction i with
  | zero =>
    intro _
    rw [Nat.zero_mod, psum_zero, add_zero]
    exact (Int.fract_eq_self.mpr (hp.mem01 0 (by omega))).symm
  | succ i ih =>
    intro hi
    have hilt : i < xs.length := hi
    have hstep := ih (le_of_lt hilt)
    have himod : i % xs.length = i := Nat.mod_eq_of_lt hilt
    rw [himod] at hstep
    have hw01 : 0 ≤ xs.getD ((i + 1) % xs.length) 0 ∧ xs.getD ((i + 1) % xs.length) 0 < 1 :=
      hp.mem01 _ (Nat.mod_lt _ (by omega))
    have hkey : Int.fract (xs.getD i 0 + cgap xs i) = xs.getD ((i + 1) % xs.length) 0 := by
      unfold cgap
      rw [fract_add_fract]
      rw [show xs.getD i 0 + (xs.getD ((i + 1) % xs.length) 0 - xs.getD i 0) =
        xs.getD ((i + 1) % xs.length) 0 by ring]
      exact Int.fract_eq_self.mpr hw01
    rw [psum_succ, ← hkey, hstep, add_comm (Int.fract (xs.getD 0 0 + psum xs i)) (cgap xs i),
      fract_add_fract, add_comm (cgap xs i), ← add_assoc]

/-- Offset form of the distance to anchor `i`. -/
lemma cp_delta {xs : List ℚ} (hp : IsCyclicPartition xs) {i : ℕ} (hi : i < xs.length) (z : ℚ) :
    Int.fract (z - xs.getD i 0) =
      Int.fract (Int.fract (z - xs.getD 0 0) - psum xs i) := by
  have hv : xs.getD i 0 = Int.fract (xs.getD 0 0 + psum xs i) := by
    have := cp_v_eq hp i (le_of_lt hi)
    rwa [Nat.mod_eq_of_lt hi] at this
  rw [Int.fract_eq_fract]
  refine ⟨⌊xs.getD 0 0 + psum xs i⌋ + ⌊z - xs.getD 0 0⌋, ?_⟩
  rw [hv]
  unfold Int.fract
  push_cast
  ring

lemma progressInRange_iff_fract {z f t : ℚ} (hz : 0 ≤ z ∧ z < 1) (hf : 0 ≤ f ∧ f < 1)
    (ht : 0 ≤ t ∧ t < 1) :
    progressInRange z f t = true ↔ Int.fract (z - f) ≤ Int.fract (t - f) := by
  unfold progressInRange
  rw [fract_sub_cases hz hf, fract_sub_cases ht hf]
  by_cases hft : t ≥ f
  · rw [if_pos hft, decide_eq_true_eq]
    have hft' : f ≤ t := hft
    rw [if_pos hft']
    by_cases hfz : f ≤ z
    · rw [if_pos hfz]
      constructor
      · intro h; linarith [h.2]
      · intro h; exact ⟨hfz, by linarith⟩
    · rw [if_neg hfz]
      constructor
      · intro h; exact absurd h.1 (by linarith)
      · intro h; exfalso; linarith [hz.1, ht.2]
  · rw [if_neg hft, decide_eq_true_eq]
    have hft' : ¬(f ≤ t) := hft
    rw [if_neg hft']
    by_cases hfz : f ≤ z
    · rw [if_pos hfz]
      constructor
      · intro _; linarith [hz.2, ht.1]
      · intro _; exact Or.inl (by linarith)
    · rw [if_neg hfz]
      constructor
      · rintro (h | h)
        · exact absurd h (by linarith)
        · linarith
      · intro h; exact Or.inr (by linarith)

/-- A segment matches a point exactly when the point's offset from the base
anchor lies between the segment's partial sums (with the wrap-around
boundary case `offset = 0` matching the final segment's right end). -/
lemma cp_match_iff {xs : List ℚ} (hp : IsCyclicPartition xs) {i : ℕ} (hi : i < xs.length)
    {z : ℚ} (hz : 0 ≤ z ∧ z < 1) :
    progressInRange z (xs.getD i 0) (xs.getD ((i + 1) % xs.length) 0) = true ↔
    ((psum xs i ≤ Int.fract (z - xs.getD 0 0) ∧
        Int.fract (z - xs.getD 0 0) ≤ psum xs (i + 1)) ∨
      (Int.fract (z - xs.getD 0 0) = 0 ∧ i + 1 = xs.length)) := by
  have hn2 : 2 ≤ xs.length := cp_two_le hp
  have hu : 0 ≤ Int.fract (z - xs.getD 0 0) ∧ Int.fract (z - xs.getD 0 0) < 1 :=
    ⟨Int.fract_nonneg _, Int.fract_lt_one _⟩
  have hsucc : cgap xs i = psum xs (i + 1) - psum xs i := by rw [psum_succ]; ring
  have hglb := hp.gapLB i hi
  rw [progressInRange_iff_fract hz (hp.mem01 i hi)
    (hp.mem01 _ (Nat.mod_lt _ (by omega)))]
  have hcg : Int.fract (xs.getD ((i + 1) % xs.length) 0 - xs.getD i 0) = cgap xs i := rfl
  rw [hcg, cp_delta hp hi z,
    fract_sub_cases hu ⟨psum_nonneg xs i, psum_lt_one hp hi⟩]
  by_cases hpu : psum xs i ≤ Int.fract (z - xs.getD 0 0)
  · rw [if_pos hpu]
    constructor
    · intro h
      exact Or.inl ⟨hpu, by linarith⟩
    · rintro (⟨_, h2⟩ | ⟨hu0, hin⟩)
      · linarith
      · exfalso
        have hpz : psum xs i = 0 := le_antisymm (hu0 ▸ hpu) (psum_nonneg xs i)
        have hi0 : i = 0 := by
          by_contra hne0
          have hpos : 0 < i := Nat.pos_of_ne_zero hne0
          have := psum_lt hp hpos (le_of_lt hi)
          rw [psum_zero] at this
          linarith
        omega
  · rw [if_neg hpu]
    push_neg at hpu
    constructor
    · intro h
      right
      have h1 : Int.fract (z - xs.getD 0 0) + 1 ≤ psum xs (i + 1) := by linarith
      have h2 : psum xs (i + 1) ≤ 1 := psum_le_one hp (by omega)
      have hu0 : Int.fract (z - xs.getD 0 0) = 0 := le_antisymm (by linarith) hu.1
      refine ⟨hu0, ?_⟩
      by_contra hne
      have hlt : i + 1 < xs.length := by omega
      have := psum_lt_one hp hlt
      linarith
    · rintro (⟨h1, _⟩ | ⟨hu0, hin⟩)
      · exact absurd h1 (not_le.mpr hpu)
      · have h1 : psum xs (i + 1) = 1 := by rw [hin]; exact hp.sumEq
        linarith

/-- Coverage: every offset in `[0,1)` lies in some segment's interval. -/
lemma cp_cover {xs : List ℚ} (hp : IsCyclicPartition xs) {u : ℚ} (hu0 : 0 ≤ u) (hu1 : u < 1) :
    ∃ i, i < xs.length ∧ psum xs i ≤ u ∧ u ≤ psum xs (i + 1) := by
  have key : ∀ k, k ≤ xs.length → u < psum xs k →
      ∃ i, i < k ∧ psum xs i ≤ u ∧ u ≤ psum xs (i + 1) := by
    intro k
    induction k with
    | zero =>
      intro _ h
      rw [psum_zero] at h
      exact absurd h (not_lt.mpr hu0)
    | succ k ih =>
      intro hk hlt
      by_cases h : u < psum xs k
      · obtain ⟨i, hik, hgood⟩ := ih (by omega) h
        exact ⟨i, by omega, hgood⟩
      · push_neg at h
        exact ⟨k, by omega, h, le_of_lt hlt⟩
  obtain ⟨i, hik, hgood⟩ := key xs.length (le_refl _) (by rw [hp.sumEq]; exact hu1)
  exact ⟨i, hik, hgood⟩

lemma find?_range_exists {n : ℕ} {p : ℕ → Bool} (h : ∃ i, i < n ∧ p i = true) :
    ∃ k, (List.range n).find? p = some k ∧ p k = true ∧ k < n := by
  cases hf : (List.range n).find? p with
  | none =>
    exfalso
    obtain ⟨i, hin, hpi⟩ := h
    have := List.find?_eq_none.mp hf i (List.mem_range.mpr hin)
    simp [hpi] at this
  | some k =>
    exact ⟨k, rfl, List.find?_some hf, List.mem_range.mp (List.mem_of_find?_eq_some hf)⟩

/-- Unfolding of `linearMap` at a found, non-degenerate segment. -/
lemma linearMap_found (xs ys : List ℚ) (x : ℚ) {k : ℕ}
    (hfind : (List.range xs.length).find? (fun i =>
      progressInRange x (xs.getD i 0) (xs.getD ((i + 1) % xs.length) 0)) = some k)
    (hnd : ¬(positiveModulo (xs.getD ((k + 1) % xs.length) 0 - xs.getD k 0) 1 < 1 / 1000)) :
    linearMap xs ys x = some (positiveModulo (ys.getD k 0 +
      positiveModulo (ys.getD ((k + 1) % xs.length) 0 - ys.getD k 0) 1 *
      (positiveModulo (x - xs.getD k 0) 1 /
        positiveModulo (xs.getD ((k + 1) % xs.length) 0 - xs.getD k 0) 1)) 1) := by
  unfold linearMap
  rw [hfind]
  simp only [if_neg hnd]

lemma cp_psum_eq_zero {xs : List ℚ} (hp : IsCyclicPartition xs) {k : ℕ}
    (hk : k ≤ xs.length) (h : psum xs k = 0) : k = 0 := by
  by_contra hne
  have hpos : 0 < k := Nat.pos_of_ne_zero hne
  have := psum_lt hp hpos hk
  rw [psum_zero] at this
  linarith

lemma cp_psum_eq_one {xs : List ℚ} (hp : IsCyclicPartition xs) {k : ℕ}
    (hk : k ≤ xs.length) (h : psum xs k = 1) : k = xs.length := by
  by_contra hne
  have hlt : k < xs.length := by omega
  have := psum_lt_one hp hlt
  linarith

/-- Any matching segment yields an offset `w` inside its partial-sum
interval that represents the matched point. -/
lemma cp_match_offset {xs : List ℚ} (hp : IsCyclicPartition xs) {i : ℕ} (hi : i < xs.length)
    {z : ℚ} (hz : 0 ≤ z ∧ z < 1)
    (hm : progressInRange z (xs.getD i 0) (xs.getD ((i + 1) % xs.length) 0) = true) :
    ∃ w, psum xs i ≤ w ∧ w ≤ psum xs (i + 1) ∧
      Int.fract (z - xs.getD i 0) = w - psum xs i ∧ z = Int.fract (xs.getD 0 0 + w) := by
  have hn2 : 2 ≤ xs.length := cp_two_le hp
  have hu : 0 ≤ Int.fract (z - xs.getD 0 0) ∧ Int.fract (z - xs.getD 0 0) < 1 :=
    ⟨Int.fract_nonneg _, Int.fract_lt_one _⟩
  rcases (cp_match_iff hp hi hz).mp hm with ⟨h1, h2⟩ | ⟨hu0, hin⟩
  · refine ⟨Int.fract (z - xs.getD 0 0), h1, h2, ?_, ?_⟩
    · rw [cp_delta hp hi z,
        fract_sub_cases hu ⟨psum_nonneg xs i, psum_lt_one hp hi⟩, if_pos h1]
    · rw [fract_add_fract, show xs.getD 0 0 + (z - xs.getD 0 0) = z by ring,
        Int.fract_eq_self.mpr hz]
  · have hipos : 0 < i := by omega
    have hppos : 0 < psum xs i := by
      have := psum_lt hp hipos (le_of_lt hi)
      rwa [psum_zero] at this
    refine ⟨1, psum_le_one hp (le_of_lt hi), by rw [hin]; exact le_of_eq hp.sumEq.symm, ?_, ?_⟩
    · rw [cp_delta hp hi z, hu0,
        fract_sub_cases ⟨le_refl 0, by norm_num⟩ ⟨psum_nonneg xs i, psum_lt_one hp hi⟩,
        if_neg (not_le.mpr hppos)]
      ring
    · have hv0 := hp.mem01 0 (by omega)
      have hzv : z = xs.getD 0 0 := by
        obtain ⟨m, hm'⟩ := (Int.fract_eq_iff.mp hu0).2.2
        rw [sub_zero] at hm'
        have hmlt : (m : ℚ) < 1 := by linarith [hz.2, hv0.1]
        have hmgt : (-1 : ℚ) < m := by linarith [hz.1, hv0.2]
        have hm0 : m = 0 := by
          have h1 : m < 1 := by exact_mod_cast hmlt
          have h2 : -1 < m := by exact_mod_cast hmgt
          omega
        rw [hm0] at hm'
        push_cast at hm'
        linarith
      rw [hzv, show xs.getD 0 0 + (1 : ℚ) = xs.getD 0 0 + ((1 : ℤ) : ℚ) by norm_num,
        Int.fract_add_int, Int.fract_eq_self.mpr hv0]

/-- Two partial-sum intervals can share a point only if they are the same
segment or cyclically adjacent with the point at the shared endpoint. -/
lemma cp_interval_cases {xs : List ℚ} (hp : IsCyclicPartition xs) {i k : ℕ}
    (hi : i < xs.length) (hk : k < xs.length) {w : ℚ}
    (h1 : psum xs i ≤ w ∧ w ≤ psum xs (i + 1)) (h2 : psum xs k ≤ w ∧ w ≤ psum xs (k + 1)) :
    k = i ∨ (k + 1 = i ∧ w = psum xs i) ∨ (i + 1 = k ∧ w = psum xs k) := by
  rcases Nat.lt_trichotomy k i with h | h | h
  · right; left
    have ha : psum xs (k + 1) ≤ psum xs i := psum_le hp h (le_of_lt hi)
    have hw1 : w = psum xs i := le_antisymm (le_trans h2.2 ha) h1.1
    refine ⟨?_, hw1⟩
    by_contra hne
    have hlt : k + 1 < i := by omega
    have := psum_lt hp hlt (le_of_lt hi)
    linarith [h1.1, h2.2]
  · exact Or.inl h
  · right; right
    have ha : psum xs (i + 1) ≤ psum xs k := psum_le hp h (le_of_lt hk)
    have hw1 : w = psum xs k := le_antisymm (le_trans h1.2 ha) h2.1
    refine ⟨?_, hw1⟩
    by_contra hne
    have hlt : i + 1 < k := by omega
    have := psum_lt hp hlt (le_of_lt hk)
    linarith [h1.2, h2.1]

set_option maxHeartbeats 1600000 in
/-- Claim C6 (corrected): for anchor lists in `[0,1)` that are listed in
cyclic order, cyclically order-preserving, and whose source and target
segments are all at least the `0.001` degeneracy threshold wide (the
`IsCyclicPartition` hypotheses), `mapBack (map x) = x` exactly for every
`x ∈ [0,1)` — in particular the circular distance is below `1e-9`. -/
theorem c6_doubleMapper_roundTrip (src tgt : List ℚ) (hlen : tgt.length = src.length)
    (hs : IsCyclicPartition src) (ht : IsCyclicPartition tgt)
    (x : ℚ) (hx : 0 ≤ x ∧ x < 1) :
    ∃ y, linearMap src tgt x = some y ∧ linearMap tgt src y = some x := by
  have hn2 : 2 ≤ src.length := cp_two_le hs
  have hmod : ∀ j : ℕ, (j + 1) % tgt.length = (j + 1) % src.length := by
    intro j; rw [hlen]
  obtain ⟨i₀, hi₀, hcov⟩ :=
    cp_cover hs (Int.fract_nonneg (x - src.getD 0 0)) (Int.fract_lt_one _)
  have hmatch₀ : progressInRange x (src.getD i₀ 0) (src.getD ((i₀ + 1) % src.length) 0) = true :=
    (cp_match_iff hs hi₀ hx).mpr (Or.inl hcov)
  obtain ⟨i, hfind, hpi, hin⟩ := @find?_range_exists src.length
    (fun j => progressInRange x (src.getD j 0) (src.getD ((j + 1) % src.length) 0))
    ⟨i₀, hi₀, hmatch₀⟩
  obtain ⟨w, hwl, hwr, hδ, hxw⟩ := cp_match_offset hs hin hx hpi
  have hG : (1 : ℚ) / 1000 ≤ cgap src i := hs.gapLB i hin
  have hGpos : (0 : ℚ) < cgap src i := by linarith
  have hiT : i < tgt.length := by omega
  have hH : (1 : ℚ) / 1000 ≤ cgap tgt i := ht.gapLB i hiT
  have hHpos : (0 : ℚ) < cgap tgt i := by linarith
  have hnd : ¬(positiveModulo (src.getD ((i + 1) % src.length) 0 - src.getD i 0) 1 <
      1 / 1000) := by
    rw [positiveModulo_one]
    have hcg : Int.fract (src.getD ((i + 1) % src.length) 0 - src.getD i 0) = cgap src i := rfl
    rw [hcg]
    linarith
  have hmap := linearMap_found src tgt x hfind hnd
  simp only [positiveModulo_one] at hmap
  have hsy : Int.fract (tgt.getD ((i + 1) % src.length) 0 - tgt.getD i 0) = cgap tgt i := by
    unfold cgap
    rw [hmod i]
  have hsx : Int.fract (src.getD ((i + 1) % src.length) 0 - src.getD i 0) = cgap src i := rfl
  rw [hsx, hsy, hδ] at hmap
  set t : ℚ := (w - psum src i) / cgap src i with ht_def
  have ht0 : 0 ≤ t := div_nonneg (by linarith) (le_of_lt hGpos)
  have ht1 : t ≤ 1 := by
    rw [ht_def, div_le_one hGpos]
    have := psum_succ src i
    linarith
  have hGt : cgap src i * t = w - psum src i := by
    rw [ht_def, mul_comm, div_mul_cancel₀ _ (ne_of_gt hGpos)]
  set y : ℚ := Int.fract (tgt.getD i 0 + cgap tgt i * t) with hy_def
  have hy01 : 0 ≤ y ∧ y < 1 := ⟨Int.fract_nonneg _, Int.fract_lt_one _⟩
  set ystar : ℚ := psum tgt i + cgap tgt i * t with hystar_def
  have hyoff : y = Int.fract (tgt.getD 0 0 + ystar) := by
    rw [hy_def, hystar_def]
    have hvi : tgt.getD i 0 = Int.fract (tgt.getD 0 0 + psum tgt i) := by
      have h := cp_v_eq ht i (le_of_lt hiT)
      rwa [Nat.mod_eq_of_lt hiT] at h
    rw [hvi, show Int.fract (tgt.getD 0 0 + psum tgt i) + cgap tgt i * t =
      cgap tgt i * t + Int.fract (tgt.getD 0 0 + psum tgt i) by ring, fract_add_fract]
    congr 1
    ring
  have hyb : psum tgt i ≤ ystar ∧ ystar ≤ psum tgt (i + 1) := by
    constructor
    · have := mul_nonneg (le_of_lt hHpos) ht0
      rw [hystar_def]
      linarith
    · have hmul : cgap tgt i * t ≤ cgap tgt i := by nlinarith
      rw [hystar_def, psum_succ]
      linarith
  obtain ⟨k₀, hk₀, hcov'⟩ :=
    cp_cover ht (Int.fract_nonneg (y - tgt.getD 0 0)) (Int.fract_lt_one _)
  have hmatch₀' : progressInRange y (tgt.getD k₀ 0) (tgt.getD ((k₀ + 1) % tgt.length) 0) =
      true := (cp_match_iff ht hk₀ hy01).mpr (Or.inl hcov')
  obtain ⟨k, hfind', hpk, hkT⟩ := @find?_range_exists tgt.length
    (fun j => progressInRange y (tgt.getD j 0) (tgt.getD ((j + 1) % tgt.length) 0))
    ⟨k₀, hk₀, hmatch₀'⟩
  obtain ⟨w', hwl', hwr', hδ', hyw'⟩ := cp_match_offset ht hkT hy01 hpk
  have hkS : k < src.length := by omega
  have hGk : (1 : ℚ) / 1000 ≤ cgap src k := hs.gapLB k hkS
  have hGkpos : (0 : ℚ) < cgap src k := by linarith
  have hHk : (1 : ℚ) / 1000 ≤ cgap tgt k := ht.gapLB k hkT
  have hHkpos : (0 : ℚ) < cgap tgt k := by linarith
  have hnd' : ¬(positiveModulo (tgt.getD ((k + 1) % tgt.length) 0 - tgt.getD k 0) 1 <
      1 / 1000) := by
    rw [positiveModulo_one]
    have hcg : Int.fract (tgt.getD ((k + 1) % tgt.length) 0 - tgt.getD k 0) = cgap tgt k := rfl
    rw [hcg]
    linarith
  have hback := linearMap_found tgt src y hfind' hnd'
  simp only [positiveModulo_one] at hback
  have hsy' : Int.fract (src.getD ((k + 1) % tgt.length) 0 - src.getD k 0) = cgap src k := by
    unfold cgap
    rw [hmod k]
  have hsx' : Int.fract (tgt.getD ((k + 1) % tgt.length) 0 - tgt.getD k 0) = cgap tgt k := rfl
  rw [hsx', hsy', hδ'] at hback
  refine ⟨y, hmap, ?_⟩
  rw [hback]
  congr 1
  have hvk : src.getD k 0 = Int.fract (src.getD 0 0 + psum src k) := by
    have h := cp_v_eq hs k (le_of_lt hkS)
    rwa [Nat.mod_eq_of_lt hkS] at h
  have hres : ∀ d : ℚ, Int.fract (src.getD k 0 + d) =
      Int.fract (src.getD 0 0 + (psum src k + d)) := by
    intro d
    rw [hvk, show Int.fract (src.getD 0 0 + psum src k) + d =
      d + Int.fract (src.getD 0 0 + psum src k) by ring, fract_add_fract]
    congr 1
    ring
  rw [hres, hxw]
  have hyb01 : 0 ≤ ystar ∧ ystar ≤ 1 :=
    ⟨le_trans (psum_nonneg tgt i) hyb.1, le_trans hyb.2 (psum_le_one ht (by omega))⟩
  have hwb01 : 0 ≤ w' ∧ w' ≤ 1 :=
    ⟨le_trans (psum_nonneg tgt k) hwl', le_trans hwr' (psum_le_one ht (by omega))⟩
  obtain ⟨m, hm⟩ : ∃ m : ℤ, ystar - w' = m := by
    have h1 : Int.fract (tgt.getD 0 0 + ystar) = Int.fract (tgt.getD 0 0 + w') := by
      rw [← hyoff, hyw']
    obtain ⟨m, hm⟩ := Int.fract_eq_fract.mp h1
    exact ⟨m, by linarith⟩
  have hm3 : m = 0 ∨ m = 1 ∨ m = -1 := by
    have h1 : (m : ℚ) ≤ 1 := by rw [← hm]; linarith [hyb01.2, hwb01.1]
    have h2 : (-1 : ℚ) ≤ (m : ℚ) := by rw [← hm]; linarith [hyb01.1, hwb01.2]
    have h1' : m ≤ 1 := by exact_mod_cast h1
    have h2' : -1 ≤ m := by exact_mod_cast h2
    omega
  rcases hm3 with hm0 | hm1 | hmm1
  · have hyw : ystar = w' := by
      rw [hm0] at hm
      push_cast at hm
      linarith
    rw [← hyw] at hwl' hwr'
    rcases cp_interval_cases ht hiT hkT hyb ⟨hwl', hwr'⟩ with hki | ⟨hk1, hwq⟩ | ⟨hi1, hwq⟩
    · obtain rfl : k = i := hki
      have hr1 : w' - psum tgt k = cgap tgt k * t := by
        rw [← hyw, hystar_def]
        ring
      rw [hr1, mul_div_cancel_left₀ _ (ne_of_gt hHkpos), hGt]
      congr 1
      ring
    · have htt : t = 0 := by
        have h0 : cgap tgt i * t = 0 := by
          have h := hwq
          rw [hystar_def] at h
          linarith
        rcases mul_eq_zero.mp h0 with h | h
        · exact absurd h (ne_of_gt hHpos)
        · exact h
      have hwPi : w = psum src i := by
        have := hGt
        rw [htt, mul_zero] at this
        linarith
      have hr1 : w' - psum tgt k = cgap tgt k := by
        rw [← hyw, hwq, ← hk1, psum_succ]
        ring
      rw [hr1, div_self (ne_of_gt hHkpos), mul_one]
      congr 1
      rw [hwPi, ← hk1, psum_succ]
    · have htt : t = 1 := by
        have h0 : cgap tgt i * t = cgap tgt i := by
          have h1 := hwq
          rw [hystar_def] at h1
          rw [← hi1, psum_succ] at h1
          linarith
        have := mul_left_cancel₀ (ne_of_gt hHpos) (h0.trans (mul_one (cgap tgt i)).symm)
        exact this
      have hwPi : w = psum src i + cgap src i := by
        have := hGt
        rw [htt, mul_one] at this
        linarith
      have hr1 : w' - psum tgt k = 0 := by
        rw [← hyw, hwq]
        ring
      rw [hr1, zero_div, mul_zero]
      congr 1
      rw [hwPi, ← hi1, psum_succ]
      ring
  · have hys1 : ystar = 1 ∧ w' = 0 := by
      rw [hm1] at hm
      push_cast at hm
      constructor <;> linarith [hyb01.2, hwb01.1]
    have hQip : psum tgt (i + 1) = 1 :=
      le_antisymm (psum_le_one ht (by omega)) (by linarith [hyb.2, hys1.1])
    have hiN : i + 1 = tgt.length := cp_psum_eq_one ht (by omega) hQip
    have htt : t = 1 := by
      have h1 : psum tgt i + cgap tgt i * t = 1 := by rw [← hystar_def, hys1.1]
      have h2 : psum tgt i + cgap tgt i = 1 := by
        have := psum_succ tgt i
        rw [← this, hQip]
      have h0 : cgap tgt i * t = cgap tgt i := by linarith
      exact mul_left_cancel₀ (ne_of_gt hHpos) (h0.trans (mul_one (cgap tgt i)).symm)
    have hw1 : w = 1 := by
      have hwPi : w = psum src i + cgap src i := by
        have := hGt
        rw [htt, mul_one] at this
        linarith
      have hiS : i + 1 = src.length := by omega
      have : psum src (i + 1) = 1 := by rw [hiS]; exact hs.sumEq
      rw [psum_succ] at this
      linarith
    have hQk0 : psum tgt k = 0 := le_antisymm (by linarith [hwl', hys1.2]) (psum_nonneg tgt k)
    obtain rfl : k = 0 := cp_psum_eq_zero ht (le_of_lt hkT) hQk0
    rw [hys1.2, hQk0, sub_zero, zero_div, mul_zero, psum_zero, hw1]
    rw [show src.getD 0 0 + (1 : ℚ) = src.getD 0 0 + ((1 : ℤ) : ℚ) by norm_num,
      Int.fract_add_int]
    congr 1
    ring
  · have hys1 : ystar = 0 ∧ w' = 1 := by
      rw [hmm1] at hm
      push_cast at hm
      constructor <;> linarith [hyb01.1, hwb01.2]
    have hQi0 : psum tgt i = 0 := le_antisymm (by linarith [hyb.1, hys1.1]) (psum_nonneg tgt i)
    have htt : t = 0 := by
      have h1 : psum tgt i + cgap tgt i * t = 0 := by rw [← hystar_def, hys1.1]
      have h0 : cgap tgt i * t = 0 := by linarith
      rcases mul_eq_zero.mp h0 with h | h
      · exact absurd h (ne_of_gt hHpos)
      · exact h
    have hw0 : w = psum src i := by
      have := hGt
      rw [htt, mul_zero] at this
      linarith
    have hi0 : i = 0 := cp_psum_eq_zero ht (le_of_lt hiT) hQi0
    have hQkp : psum tgt (k + 1) = 1 :=
      le_antisymm (psum_le_one ht (by omega)) (by linarith [hwr', hys1.2])
    have hkN : k + 1 = tgt.length := cp_psum_eq_one ht (by omega) hQkp
    have hr1 : w' - psum tgt k = cgap tgt k := by
      have hps := psum_succ tgt k
      rw [hQkp] at hps
      rw [hys1.2]
      linarith
    have hsum1 : psum src k + cgap src k = 1 := by
      have hkS1 : k + 1 = src.length := by omega
      have h1 : psum src (k + 1) = 1 := by rw [hkS1]; exact hs.sumEq
      rw [psum_succ] at h1
      linarith
    rw [hr1, div_self (ne_of_gt hHkpos), mul_one, hw0, hi0, psum_zero, hsum1]
    rw [show src.getD 0 0 + (1 : ℚ) = src.getD 0 0 + ((1 : ℤ) : ℚ) by norm_num,
      Int.fract_add_int]
    congr 1
    ring

/-- Witness for claim C6's amended theorem: the identity-shaped mapper on
anchors `0` and `1/2` round-trips `1/4` exactly. -/
theorem c6_witness :
    IsCyclicPartition [(0 : ℚ), 1 / 2] ∧ (0 : ℚ) ≤ 1 / 4 ∧ (1 / 4 : ℚ) < 1 ∧
    ∃ y, linearMap [(0 : ℚ), 1 / 2] [(0 : ℚ), 1 / 2] (1 / 4) = some y ∧
      linearMap [(0 : ℚ), 1 / 2] [(0 : ℚ), 1 / 2] y = some (1 / 4) := by
  have hcp : IsCyclicPartition [(0 : ℚ), 1 / 2] := by
    refine ⟨?_, ?_, ?_⟩
    · intro i hi
      have hi2 : i < 2 := by simpa using hi
      interval_cases i <;> norm_num
    · intro i hi
      have hi2 : i < 2 := by simpa using hi
      interval_cases i <;> norm_num [cgap, Int.fract]
    · norm_num [psum, List.range_succ, cgap, Int.fract]
  exact ⟨hcp, by norm_num, by norm_num,
    c6_doubleMapper_roundTrip _ _ rfl hcp hcp (1 / 4) ⟨by norm_num, by norm_num⟩⟩

end RoundedPolygonLib
